import Mathlib

/-!
Shallow embedding of `src/libvips/iofuncs/buffer.c` — the per-thread pixel
buffer cache of libvips.

The C code manages heap-allocated `VipsBuffer` structs.  We model the heap as
an association list `bufs : List (Nat × VipsBuffer)` from buffer identities to
buffer records; freeing a buffer removes its entry.  The single-threaded cache
(`VipsBufferCache`), its hash from image identity to the per-image list of
published buffers (`VipsBufferCacheList.buffers`), and the reserve pool are
carried in an explicit state `CacheState`.  All operations run on one thread,
so the `GPrivate` thread-local lookup `buffer_cache_get` always yields the one
cache in the state, and every `g_assert( ...thread... )` holds trivially.

Fatal events — `g_assert` failures and dereferences of freed or NULL pointers —
are modelled by returning `none`; allocation failure (`vips_tracked_malloc`
returning NULL) is an ordinary result, driven by an oracle list of Booleans in
the state.  Machine arithmetic: `ref_count` is a C `int`, modelled as `Int`
(all changes stay far from overflow); `bsize` is a `size_t`, and the size
computation in `buffer_move` reduces modulo `2 ^ 64` exactly where the C
unsigned arithmetic does.
-/

/-- Rectangle with `int` fields, as in `VipsRect` (`left`, `top`, `width`,
`height`).  Coordinate arithmetic on the C `int`s never overflows in the
scenarios considered, so the fields are modelled as `Int`. -/
structure VipsRect where
  left : Int
  top : Int
  width : Int
  height : Int
deriving DecidableEq, Repr

/-- Modelled from the spec: `rectEncloses(outer, inner)` — the geometry
collaborator `vips_rect_includesrect` lives in `rect.c`, outside the sources
at hand.  Per the glossary, rectangle A encloses B iff every pixel of B lies
within A; this is exactly the four comparisons that `buffer_find` also inlines
(`area->left <= r->left && area->top <= r->top && area->left + area->width >=
r->left + r->width && area->top + area->height >= r->top + r->height`). -/
def vips_rect_includesrect (r1 r2 : VipsRect) : Bool :=
  decide (r1.left ≤ r2.left ∧ r1.top ≤ r2.top ∧
    r2.left + r2.width ≤ r1.left + r1.width ∧
    r2.top + r2.height ≤ r1.top + r1.height)

/-- One `VipsBuffer` struct.  `buf` records whether the backing allocation
(`buffer->buf` in C) is non-NULL; `cache` records whether `buffer->cache` is
non-NULL (it points at the unique per-thread cache whenever set). -/
structure VipsBuffer where
  ref_count : Int
  im : Option Nat
  done : Bool
  cache : Bool
  buf : Bool
  bsize : Nat
  area : VipsRect
deriving DecidableEq, Repr

/-- The per-thread `VipsBufferCache`: the hash from image identity to that
image's list of published buffers (`VipsBufferCacheList.buffers`, here inlined
as the list of buffer identities), the reserve pool, and its counter.  The
hash key is `Option Nat` because the C key is the `VipsImage *` pointer, which
the code never checks against NULL. -/
structure VipsBufferCache where
  hash : List (Option Nat × List Nat)
  reserve : List Nat
  n_reserve : Nat
deriving DecidableEq, Repr

/-- The whole mutable world of `buffer.c` on one thread: the arena of live
`VipsBuffer` structs, the thread's cache, a fresh-identity counter for
`g_new0`, the allocation oracle consumed by `vips_tracked_malloc`, and the
image accessor `pel` standing for `VIPS_IMAGE_SIZEOF_PEL`. -/
structure CacheState where
  bufs : List (Nat × VipsBuffer)
  cache : VipsBufferCache
  nextId : Nat
  allocOk : List Bool
  pel : Nat → Nat

/-- Maximum number of buffers held in reserve per thread
(`buffer_cache_max_reserve` in `buffer.c`). -/
def buffer_cache_max_reserve : Nat := 40

/-- Dereference a buffer pointer: look its identity up in the arena. -/
def lookupBuf (id : Nat) : List (Nat × VipsBuffer) → Option VipsBuffer
  | [] => none
  | (i, b) :: rest => if i = id then some b else lookupBuf id rest

/-- Overwrite the fields of the (first) buffer with the given identity. -/
def setBuf (id : Nat) (b : VipsBuffer) : List (Nat × VipsBuffer) → List (Nat × VipsBuffer)
  | [] => []
  | (i, b0) :: rest => if i = id then (i, b) :: rest else (i, b0) :: setBuf id b rest

/-- Remove the (first) arena entry with the given identity — the struct is
gone after `g_free`. -/
def eraseBuf (id : Nat) : List (Nat × VipsBuffer) → List (Nat × VipsBuffer)
  | [] => []
  | (i, b0) :: rest => if i = id then rest else (i, b0) :: eraseBuf id rest

/-- The `g_hash_table_lookup` on the cache's image hash. -/
def hashLookup (k : Option Nat) : List (Option Nat × List Nat) → Option (List Nat)
  | [] => none
  | (k0, l) :: rest => if k0 = k then some l else hashLookup k rest

/-- Replace the buffer list stored under an existing image key (the C code
mutates the `VipsBufferCacheList` in place through the pointer held by the
hash). -/
def setHash (k : Option Nat) (l : List Nat) :
    List (Option Nat × List Nat) → List (Option Nat × List Nat)
  | [] => []
  | (k0, l0) :: rest => if k0 = k then (k0, l) :: rest else (k0, l0) :: setHash k l rest

/-- Modelled from the spec: the tracked allocator's `allocate(size) -> bytes |
failure` (`vips_tracked_malloc`, defined outside these sources).  Success or
failure is driven by the oracle list; an exhausted oracle means success, so a
default state never fails. -/
def vips_tracked_malloc (s : CacheState) : Bool × CacheState :=
  match s.allocOk with
  | [] => (true, s)
  | ok :: rest => (ok, { s with allocOk := rest })

/-- Conversion of a C `int` to `size_t` (reduce modulo `2 ^ 64`). -/
def toSizeT (z : Int) : Nat := (z % (2 ^ 64 : Int)).toNat

/-- The size computation of `buffer_move`: `(size_t) VIPS_IMAGE_SIZEOF_PEL(
im ) * area->width * area->height`, with each multiplication performed in
`size_t`. -/
def sizeofBuffer (pel : Nat) (r : VipsRect) : Nat :=
  pel % 2 ^ 64 * toSizeT r.width % 2 ^ 64 * toSizeT r.height % 2 ^ 64

/-- Embedding of `vips_buffer_free`: release the backing memory and the
struct itself.  In the heap model the arena entry simply disappears (the
`bsize = 0` write precedes `g_free` and is unobservable afterwards). -/
def vips_buffer_free (id : Nat) (s : CacheState) : CacheState :=
  { s with bufs := eraseBuf id s.bufs }

/-- Embedding of `vips_buffer_undone`: take the buffer off the public list of
its image if it is `done`, then defensively zero the area's width and height.
`g_assert` failures (no cache list for the image, buffer missing from its
list) and dereferencing a dangling pointer are fatal (`none`). -/
def vips_buffer_undone (id : Nat) (s : CacheState) : Option CacheState :=
  match lookupBuf id s.bufs with
  | none => none
  | some b =>
    if b.done then
      match hashLookup b.im s.cache.hash with
      | none => none
      | some l =>
        if id ∈ l then
          let b1 := { b with done := false, cache := false,
                             area := { b.area with width := 0, height := 0 } }
          some { s with
            cache := { s.cache with hash := setHash b.im (l.erase id) s.cache.hash },
            bufs := setBuf id b1 s.bufs }
        else none
    else
      let b1 := { b with area := { b.area with width := 0, height := 0 } }
      some { s with bufs := setBuf id b1 s.bufs }

/-- Embedding of `vips_buffer_done`: publish the buffer on the cache list for
its image, creating the list (and hash entry) if absent; a no-op when the
buffer is already `done`.  The `g_assert( !g_slist_find( ... ) )` — the buffer
must not already sit on the list while `done` is false — is fatal. -/
def vips_buffer_done (id : Nat) (s : CacheState) : Option CacheState :=
  match lookupBuf id s.bufs with
  | none => none
  | some b =>
    if b.done then some s
    else
      match hashLookup b.im s.cache.hash with
      | none =>
        some { s with
          cache := { s.cache with hash := (b.im, [id]) :: s.cache.hash },
          bufs := setBuf id { b with done := true, cache := true } s.bufs }
      | some l =>
        if id ∈ l then none
        else
          some { s with
            cache := { s.cache with hash := setHash b.im (id :: l) s.cache.hash },
            bufs := setBuf id { b with done := true, cache := true } s.bufs }

/-- Embedding of `vips_buffer_unref`: drop one reference (`g_assert(
buffer->ref_count > 0 )` is fatal); on reaching zero, unpublish, then park the
buffer detached on the reserve if `n_reserve < buffer_cache_max_reserve`,
else free it permanently. -/
def vips_buffer_unref (id : Nat) (s : CacheState) : Option CacheState :=
  match lookupBuf id s.bufs with
  | none => none
  | some b =>
    if b.ref_count ≤ 0 then none
    else
      let s1 := { s with bufs := setBuf id { b with ref_count := b.ref_count - 1 } s.bufs }
      if b.ref_count - 1 = 0 then
        match vips_buffer_undone id s1 with
        | none => none
        | some s2 =>
          if s2.cache.n_reserve < buffer_cache_max_reserve then
            match lookupBuf id s2.bufs with
            | none => none
            | some b2 =>
              let b3 := { b2 with done := false, cache := false, im := none,
                                  area := { b2.area with width := 0, height := 0 } }
              let c2 := { s2.cache with reserve := id :: s2.cache.reserve,
                                        n_reserve := s2.cache.n_reserve + 1 }
              some { s2 with cache := c2, bufs := setBuf id b3 s2.bufs }
          else some (vips_buffer_free id s2)
      else some s1

/-- Embedding of `buffer_move`: resize/retarget an exclusively held buffer
(`g_assert( buffer->ref_count == 1 )` is fatal).  Unpublish, install the new
area, and when the current capacity is insufficient or there is no data,
free the old block and allocate `new_bsize` bytes; the `Bool` is `true` for
the C return value `0` and `false` for `-1` (allocation failure, with
`buf` NULL and `bsize` already set to the new size). -/
def buffer_move (id : Nat) (area : VipsRect) (s : CacheState) : Option (Bool × CacheState) :=
  match lookupBuf id s.bufs with
  | none => none
  | some b =>
    if b.ref_count = 1 then
      match vips_buffer_undone id s with
      | none => none
      | some s1 =>
        match lookupBuf id s1.bufs with
        | none => none
        | some b1 =>
          match b.im with
          | none => none
          | some imId =>
            let new_bsize := sizeofBuffer (s.pel imId) area
            if b1.bsize < new_bsize ∨ b1.buf = false then
              let bFreed := { b1 with area := area, bsize := new_bsize, buf := false }
              let bAlloc := { b1 with area := area, bsize := new_bsize, buf := true }
              let s2 := { s1 with bufs := setBuf id bFreed s1.bufs }
              match vips_tracked_malloc s2 with
              | (true, s3) => some (true, { s3 with bufs := setBuf id bAlloc s3.bufs })
              | (false, s3) => some (false, s3)
            else
              some (true, { s1 with bufs := setBuf id { b1 with area := area } s1.bufs })
    else none

/-- Embedding of `vips_buffer_new`: take the most recently parked reserve
buffer if there is one, else `g_new0` a fresh struct; give it one reference
and the target image, then `buffer_move` it over the requested area.  On move
failure the buffer is freed and NULL (`none` in the inner option) returned;
the outer option is for fatal events only. -/
def vips_buffer_new (im : Nat) (area : VipsRect) (s : CacheState) :
    Option (Option Nat × CacheState) :=
  match s.cache.reserve with
  | id :: rest =>
    match lookupBuf id s.bufs with
    | none => none
    | some b =>
      let b1 := { b with ref_count := (1 : Int), im := some im,
                         done := false, cache := false }
      let s1 := { s with
        cache := { s.cache with reserve := rest, n_reserve := s.cache.n_reserve - 1 },
        bufs := setBuf id b1 s.bufs }
      match buffer_move id area s1 with
      | none => none
      | some (true, s2) => some (some id, s2)
      | some (false, s2) => some (none, vips_buffer_free id s2)
  | [] =>
    let id := s.nextId
    let b0 : VipsBuffer := { ref_count := 1, im := some im, done := false, cache := false,
                             buf := false, bsize := 0,
                             area := { left := 0, top := 0, width := 0, height := 0 } }
    let s1 := { s with bufs := (id, b0) :: s.bufs, nextId := id + 1 }
    match buffer_move id area s1 with
    | none => none
    | some (true, s2) => some (some id, s2)
    | some (false, s2) => some (none, vips_buffer_free id s2)

/-- The search loop of `buffer_find`: walk the image's published list in list
order and take the first buffer whose area encloses `r`, bumping its
reference count.  Dereferencing a dangling list entry is fatal. -/
def buffer_find_loop (r : VipsRect) (s : CacheState) :
    List Nat → Option (Option Nat × CacheState)
  | [] => some (none, s)
  | id :: rest =>
    match lookupBuf id s.bufs with
    | none => none
    | some b =>
      if vips_rect_includesrect b.area r then
        let b1 := { b with ref_count := b.ref_count + 1 }
        some (some id, { s with bufs := setBuf id b1 s.bufs })
      else buffer_find_loop r s rest

/-- Embedding of `buffer_find`: hash lookup by image, then the first-fit scan
(the enclosure test is inlined in C but is the same four comparisons as
`vips_rect_includesrect`). -/
def buffer_find (im : Nat) (r : VipsRect) (s : CacheState) :
    Option (Option Nat × CacheState) :=
  match hashLookup (some im) s.cache.hash with
  | none => some (none, s)
  | some l => buffer_find_loop r s l

/-- Embedding of `vips_buffer_ref` (the spec's `acquire`): return a ref to an
existing enclosing buffer, or make a new one. -/
def vips_buffer_ref (im : Nat) (area : VipsRect) (s : CacheState) :
    Option (Option Nat × CacheState) :=
  match buffer_find im area s with
  | none => none
  | some (some id, s1) => some (some id, s1)
  | some (none, s1) => vips_buffer_new im area s1

/-- Embedding of `vips_buffer_unref_ref` (the spec's `swapReference`): unref
old, ref new, in a single operation.  The entry `g_assert( !old_buffer ||
old_buffer->im == im )` is fatal.  Then: keep the old buffer when it already
encloses the area; else prefer a published enclosing buffer; else move the
old buffer in place when it is exclusively held; else fall back to unref plus
`vips_buffer_new`. -/
def vips_buffer_unref_ref (old : Option Nat) (im : Nat) (area : VipsRect) (s : CacheState) :
    Option (Option Nat × CacheState) :=
  match old with
  | some oid =>
    match lookupBuf oid s.bufs with
    | none => none
    | some ob =>
      if ob.im ≠ some im then none
      else if vips_rect_includesrect ob.area area then some (some oid, s)
      else
        match buffer_find im area s with
        | none => none
        | some (some id, s1) =>
          match vips_buffer_unref oid s1 with
          | none => none
          | some s2 => some (some id, s2)
        | some (none, s1) =>
          match lookupBuf oid s1.bufs with
          | none => none
          | some ob1 =>
            if ob1.ref_count = 1 then
              match buffer_move oid area s1 with
              | none => none
              | some (true, s2) => some (some oid, s2)
              | some (false, s2) =>
                match vips_buffer_unref oid s2 with
                | none => none
                | some s3 => some (none, s3)
            else
              match vips_buffer_unref oid s1 with
              | none => none
              | some s2 => vips_buffer_new im area s2
  | none =>
    match buffer_find im area s with
    | none => none
    | some (some id, s1) => some (some id, s1)
    | some (none, s1) => vips_buffer_new im area s1

/-- One call into the public buffer API, as the spec's collaborating
execution engine makes them: `acquire` is `vips_buffer_ref`, `release` is
`vips_buffer_unref`, `swap` is `vips_buffer_unref_ref`, `publish` is
`vips_buffer_done` and `unpublish` is `vips_buffer_undone`. -/
inductive BufOp where
  | acquire (im : Nat) (r : VipsRect)
  | release (id : Nat)
  | swap (old : Option Nat) (im : Nat) (r : VipsRect)
  | publish (id : Nat)
  | unpublish (id : Nat)
deriving DecidableEq, Repr

/-- A buffer identity names a reference the client currently holds: it is in
the arena with a positive reference count.  Passing any other pointer to the
API (freed, or relinquished to the reserve) is use of a dangling handle. -/
def liveRef (id : Nat) (s : CacheState) : Bool :=
  match lookupBuf id s.bufs with
  | some b => decide (0 < b.ref_count)
  | none => false

/-- Apply one API call.  Buffer arguments must be references the client
holds (`liveRef`); handing the cache a relinquished or freed pointer is a
caller contract violation — undefined behaviour in C — and is fatal here,
exactly like a failed `g_assert`. -/
def step (op : BufOp) (s : CacheState) : Option CacheState :=
  match op with
  | .acquire im r => (vips_buffer_ref im r s).map Prod.snd
  | .release id => vips_buffer_unref id s
  | .swap old im r =>
    match old with
    | some oid =>
      if liveRef oid s then (vips_buffer_unref_ref old im r s).map Prod.snd else none
    | none => (vips_buffer_unref_ref none im r s).map Prod.snd
  | .publish id => if liveRef id s then vips_buffer_done id s else none
  | .unpublish id => if liveRef id s then vips_buffer_undone id s else none

/-- Run a sequence of API calls, stopping at the first fatal event. -/
def runOps (ops : List BufOp) (s : CacheState) : Option CacheState :=
  match ops with
  | [] => some s
  | op :: rest =>
    match step op s with
    | none => none
    | some s1 => runOps rest s1

/-- The state of a freshly created thread cache (`buffer_cache_new`):
empty hash, empty reserve, no buffers yet. -/
def initState (pel : Nat → Nat) (allocOk : List Bool) : CacheState :=
  { bufs := [], cache := { hash := [], reserve := [], n_reserve := 0 }, nextId := 0,
    allocOk := allocOk, pel := pel }

/-- The test applied to each published buffer during the `buffer_find` scan:
does the buffer's area enclose the requested rectangle?  (A dangling entry
tests false; the scan itself treats it as fatal.) -/
def findTest (s : CacheState) (r : VipsRect) (id : Nat) : Bool :=
  match lookupBuf id s.bufs with
  | some b => vips_rect_includesrect b.area r
  | none => false

/-- Increment the reference count of one buffer, leaving all else alone —
the effect of a `buffer_find` hit. -/
def bumpRef (id : Nat) (s : CacheState) : CacheState :=
  match lookupBuf id s.bufs with
  | some b => { s with bufs := setBuf id { b with ref_count := b.ref_count + 1 } s.bufs }
  | none => s

/-- The buffer a failing `vips_buffer_new` would have used: the head of the
reserve if the reserve is non-empty, else the next fresh identity. -/
def allocTarget (s : CacheState) : Nat :=
  match s.cache.reserve with
  | id :: _ => id
  | [] => s.nextId

/-- A buffer identity is registered in no image's published list. -/
def notInAnyList (id : Nat) (s : CacheState) : Prop :=
  ∀ e ∈ s.cache.hash, id ∉ e.2

/-- Every reserve member is a live arena entry that is detached: no image,
unpublished, zero references. -/
def reserveDetached (s : CacheState) : Prop :=
  ∀ id ∈ s.cache.reserve, ∃ b, lookupBuf id s.bufs = some b ∧
    b.im = none ∧ b.done = false ∧ b.ref_count = 0

/-- No buffer in the arena has a negative reference count. -/
def refsNonneg (s : CacheState) : Prop :=
  ∀ p ∈ s.bufs, 0 ≤ p.2.ref_count

/-! Concrete scenario data, used to evaluate the theorems on closed inputs:
one byte per pixel, a handful of rectangles, and a few short runs of the
public API from a fresh cache. -/

/-- One byte per pixel for every image. -/
def pel1 : Nat → Nat := fun _ => 1

def rectA : VipsRect := { left := 0, top := 0, width := 10, height := 10 }

def rectB : VipsRect := { left := 0, top := 0, width := 12, height := 12 }

def rectSub : VipsRect := { left := 0, top := 0, width := 5, height := 5 }

def rectC : VipsRect := { left := 3, top := 4, width := 2, height := 2 }

def rect1 : VipsRect := { left := 0, top := 0, width := 1, height := 1 }

def rect2 : VipsRect := { left := 0, top := 0, width := 2, height := 2 }

/-- A fresh cache whose allocator always succeeds. -/
def initS : CacheState := initState pel1 []

/-- Two buffers on image 0, both published; buffer 1 (published last, area
`rectB`) sits before buffer 0 (area `rectA`) in the image's list. -/
def sPub2 : CacheState :=
  (runOps [.acquire 0 rectA, .publish 0, .acquire 0 rectB, .publish 1] initS).getD initS

/-- Buffer 0 published with area `rectA`; buffer 1 acquired but not yet
published. -/
def sPub1New : CacheState :=
  (runOps [.acquire 0 rectA, .publish 0, .acquire 0 rectB] initS).getD initS

/-- One buffer acquired over `rectC` and released again: it sits detached in
the reserve, with the stale `left`/`top` of `rectC`. -/
def sParked : CacheState := (runOps [.acquire 0 rectC, .release 0] initS).getD initS

/-- The buffer record parked in `sParked`. -/
def bParkedC : VipsBuffer :=
  { ref_count := 0, im := none, done := false, cache := false, buf := true, bsize := 4,
    area := { left := 3, top := 4, width := 0, height := 0 } }

/-- One live reference to a buffer over `rectA` on image 0. -/
def sHoldA : CacheState := (runOps [.acquire 0 rectA] initS).getD initS

/-- One live reference to a buffer over `rect1`, with the next allocation due
to fail. -/
def sHold1F : CacheState :=
  (runOps [.acquire 0 rect1] (initState pel1 [true, false])).getD initS

/-- The buffer record held in `sHoldA`. -/
def bHoldA : VipsBuffer :=
  { ref_count := 1, im := some 0, done := false, cache := false, buf := true, bsize := 100,
    area := rectA }

/-- The buffer record held in `sHold1F`. -/
def bHold1F : VipsBuffer :=
  { ref_count := 1, im := some 0, done := false, cache := false, buf := true, bsize := 1,
    area := rect1 }

/-- Buffer 0 as published in `sPub2` and `sPub1New`. -/
def bPubA : VipsBuffer :=
  { ref_count := 1, im := some 0, done := true, cache := true, buf := true, bsize := 100,
    area := rectA }

/-- Buffer 1 as published in `sPub2`. -/
def bPubB : VipsBuffer :=
  { ref_count := 1, im := some 0, done := true, cache := true, buf := true, bsize := 144,
    area := rectB }

/-- Buffer 1 as held, not yet published, in `sPub1New`. -/
def bNewB : VipsBuffer :=
  { ref_count := 1, im := some 0, done := false, cache := false, buf := true, bsize := 144,
    area := rectB }

/-- Forty-one acquires followed by forty releases: the reserve is full and
buffer 40 still holds its single reference. -/
def fullOps : List BufOp :=
  List.replicate 41 (BufOp.acquire 0 rect1) ++ (List.range 40).map BufOp.release

/-- The state after `fullOps`: reserve at its maximum of 40. -/
def sFull : CacheState := (runOps fullOps initS).getD initS

/-! Basic lemmas about the arena and hash primitives. -/

theorem lookupBuf_mem {id : Nat} {b : VipsBuffer} :
    ∀ {l : List (Nat × VipsBuffer)}, lookupBuf id l = some b → (id, b) ∈ l := by
  intro l
  induction l with
  | nil => intro h; simp [lookupBuf] at h
  | cons p rest ih =>
    obtain ⟨i, b0⟩ := p
    intro h
    simp only [lookupBuf] at h
    by_cases hi : i = id
    · subst hi
      simp at h
      subst h
      exact List.mem_cons_self _ _
    · simp [hi] at h
      exact List.mem_cons_of_mem _ (ih h)

theorem lookupBuf_none_iff {id : Nat} :
    ∀ {l : List (Nat × VipsBuffer)}, lookupBuf id l = none ↔ id ∉ l.map Prod.fst := by
  intro l
  induction l with
  | nil => simp [lookupBuf]
  | cons p rest ih =>
    obtain ⟨i, b0⟩ := p
    by_cases hi : i = id
    · subst hi
      simp [lookupBuf]
    · simp [lookupBuf, hi, ih, Ne.symm hi]

theorem mem_lookupBuf {id : Nat} {b : VipsBuffer} :
    ∀ {l : List (Nat × VipsBuffer)}, (l.map Prod.fst).Nodup → (id, b) ∈ l →
      lookupBuf id l = some b := by
  intro l
  induction l with
  | nil => simp
  | cons p rest ih =>
    obtain ⟨i, b0⟩ := p
    intro hnd hm
    simp only [List.map_cons, List.nodup_cons] at hnd
    rcases List.mem_cons.mp hm with h | h
    · obtain ⟨h1, h2⟩ := Prod.mk.injEq .. ▸ h
      injection h with h
      simp_all [lookupBuf]
    · have hne : i ≠ id := by
        rintro rfl
        exact hnd.1 (List.mem_map.mpr ⟨(i, b), h, rfl⟩)
      simp [lookupBuf, hne, ih hnd.2 h]

theorem lookupBuf_setBuf_self {id : Nat} {b v : VipsBuffer} :
    ∀ {l : List (Nat × VipsBuffer)}, lookupBuf id l = some b →
      lookupBuf id (setBuf id v l) = some v := by
  intro l
  induction l with
  | nil => intro h; simp [lookupBuf] at h
  | cons p rest ih =>
    obtain ⟨i, b0⟩ := p
    intro h
    by_cases hi : i = id
    · subst hi; simp [lookupBuf, setBuf]
    · simp only [lookupBuf, setBuf, if_neg hi] at h ⊢
      simp [lookupBuf, hi, ih h]

theorem lookupBuf_setBuf_ne {i id : Nat} {v : VipsBuffer} (hne : i ≠ id) :
    ∀ {l : List (Nat × VipsBuffer)}, lookupBuf i (setBuf id v l) = lookupBuf i l := by
  intro l
  induction l with
  | nil => simp [lookupBuf, setBuf]
  | cons p rest ih =>
    obtain ⟨j, b0⟩ := p
    by_cases hj : j = id
    · subst hj
      have hji : ¬ (j = i) := fun h => hne h.symm
      simp [lookupBuf, setBuf, hji]
    · simp only [setBuf, if_neg hj, lookupBuf]
      by_cases hji : j = i
      · simp [hji]
      · simp [hji, ih]

theorem setBuf_keys {id : Nat} {v : VipsBuffer} :
    ∀ {l : List (Nat × VipsBuffer)}, (setBuf id v l).map Prod.fst = l.map Prod.fst := by
  intro l
  induction l with
  | nil => simp [setBuf]
  | cons p rest ih =>
    obtain ⟨i, b0⟩ := p
    by_cases hi : i = id
    · simp [setBuf, hi]
    · simp [setBuf, hi, ih]

theorem mem_setBuf {id : Nat} {v : VipsBuffer} {p : Nat × VipsBuffer} :
    ∀ {l : List (Nat × VipsBuffer)}, p ∈ setBuf id v l → (p.1 = id ∧ p.2 = v) ∨ p ∈ l := by
  intro l
  induction l with
  | nil => simp [setBuf]
  | cons q rest ih =>
    obtain ⟨i, b0⟩ := q
    intro h
    by_cases hi : i = id
    · subst hi
      simp only [setBuf, if_pos rfl] at h
      rcases List.mem_cons.mp h with h | h
      · left; subst h; exact ⟨rfl, rfl⟩
      · right; exact List.mem_cons_of_mem _ h
    · simp only [setBuf, if_neg hi] at h
      rcases List.mem_cons.mp h with h | h
      · right; subst h; exact List.mem_cons_self _ _
      · rcases ih h with h | h
        · left; exact h
        · right; exact List.mem_cons_of_mem _ h

theorem setBuf_setBuf {id : Nat} {v w : VipsBuffer} :
    ∀ {l : List (Nat × VipsBuffer)}, setBuf id v (setBuf id w l) = setBuf id v l := by
  intro l
  induction l with
  | nil => simp [setBuf]
  | cons p rest ih =>
    obtain ⟨i, b0⟩ := p
    by_cases hi : i = id
    · simp [setBuf, hi]
    · simp [setBuf, hi, ih]

theorem setBuf_lookup_self {id : Nat} {v : VipsBuffer} :
    ∀ {l : List (Nat × VipsBuffer)}, lookupBuf id l = some v → setBuf id v l = l := by
  intro l
  induction l with
  | nil => simp [lookupBuf]
  | cons p rest ih =>
    obtain ⟨i, b0⟩ := p
    intro h
    by_cases hi : i = id
    · subst hi
      simp only [lookupBuf, if_pos rfl] at h
      injection h with h
      simp [setBuf, h]
    · simp only [lookupBuf, if_neg hi] at h
      simp [setBuf, hi, ih h]

theorem eraseBuf_sublist {id : Nat} :
    ∀ {l : List (Nat × VipsBuffer)}, (eraseBuf id l).Sublist l := by
  intro l
  induction l with
  | nil => simp [eraseBuf]
  | cons p rest ih =>
    obtain ⟨i, b0⟩ := p
    by_cases hi : i = id
    · simp only [eraseBuf, if_pos hi]
      exact List.sublist_cons_self _ _
    · simp only [eraseBuf, if_neg hi]
      exact ih.cons₂ _

theorem mem_eraseBuf {id : Nat} {p : Nat × VipsBuffer} {l : List (Nat × VipsBuffer)}
    (h : p ∈ eraseBuf id l) : p ∈ l :=
  eraseBuf_sublist.mem h

theorem eraseBuf_keys_nodup {id : Nat} {l : List (Nat × VipsBuffer)}
    (h : (l.map Prod.fst).Nodup) : ((eraseBuf id l).map Prod.fst).Nodup :=
  ((eraseBuf_sublist).map Prod.fst).nodup h

theorem lookupBuf_eraseBuf_self {id : Nat} :
    ∀ {l : List (Nat × VipsBuffer)}, (l.map Prod.fst).Nodup →
      lookupBuf id (eraseBuf id l) = none := by
  intro l
  induction l with
  | nil => simp [eraseBuf, lookupBuf]
  | cons p rest ih =>
    obtain ⟨i, b0⟩ := p
    intro hnd
    simp only [List.map_cons, List.nodup_cons] at hnd
    by_cases hi : i = id
    · subst hi
      simp only [eraseBuf, if_pos rfl]
      exact lookupBuf_none_iff.mpr hnd.1
    · simp only [eraseBuf, if_neg hi, lookupBuf, if_neg hi]
      exact ih hnd.2

theorem lookupBuf_eraseBuf_ne {i id : Nat} (hne : i ≠ id) :
    ∀ {l : List (Nat × VipsBuffer)}, lookupBuf i (eraseBuf id l) = lookupBuf i l := by
  intro l
  induction l with
  | nil => simp [eraseBuf]
  | cons p rest ih =>
    obtain ⟨j, b0⟩ := p
    by_cases hj : j = id
    · subst hj
      simp only [eraseBuf, if_pos rfl, lookupBuf]
      have : j ≠ i := fun h => hne h.symm
      simp [this]
    · simp only [eraseBuf, if_neg hj, lookupBuf]
      by_cases hji : j = i
      · simp [hji]
      · simp [hji, ih]

theorem hashLookup_mem {k : Option Nat} {l : List Nat} :
    ∀ {h : List (Option Nat × List Nat)}, hashLookup k h = some l → (k, l) ∈ h := by
  intro h
  induction h with
  | nil => intro hh; simp [hashLookup] at hh
  | cons e rest ih =>
    obtain ⟨k0, l0⟩ := e
    intro hh
    by_cases hk : k0 = k
    · subst hk
      simp only [hashLookup, if_pos rfl] at hh
      injection hh with hh
      subst hh
      exact List.mem_cons_self _ _
    · simp only [hashLookup, if_neg hk] at hh
      exact List.mem_cons_of_mem _ (ih hh)

theorem hashLookup_none_iff {k : Option Nat} :
    ∀ {h : List (Option Nat × List Nat)}, hashLookup k h = none ↔ k ∉ h.map Prod.fst := by
  intro h
  induction h with
  | nil => simp [hashLookup]
  | cons e rest ih =>
    obtain ⟨k0, l0⟩ := e
    by_cases hk : k0 = k
    · subst hk; simp [hashLookup]
    · simp [hashLookup, hk, ih, Ne.symm hk]

theorem mem_hashLookup {k : Option Nat} {l : List Nat} :
    ∀ {h : List (Option Nat × List Nat)}, (h.map Prod.fst).Nodup → (k, l) ∈ h →
      hashLookup k h = some l := by
  intro h
  induction h with
  | nil => simp
  | cons e rest ih =>
    obtain ⟨k0, l0⟩ := e
    intro hnd hm
    simp only [List.map_cons, List.nodup_cons] at hnd
    rcases List.mem_cons.mp hm with hh | hh
    · injection hh with h1 h2
      subst h1
      simp [hashLookup, h2]
    · have hne : k0 ≠ k := by
        rintro rfl
        exact hnd.1 (List.mem_map.mpr ⟨(k0, l), hh, rfl⟩)
      simp [hashLookup, hne, ih hnd.2 hh]

theorem hashLookup_setHash_self {k : Option Nat} {v l : List Nat} :
    ∀ {h : List (Option Nat × List Nat)}, hashLookup k h = some l →
      hashLookup k (setHash k v h) = some v := by
  intro h
  induction h with
  | nil => intro hh; simp [hashLookup] at hh
  | cons e rest ih =>
    obtain ⟨k0, l0⟩ := e
    intro hh
    by_cases hk : k0 = k
    · subst hk; simp [hashLookup, setHash]
    · simp only [hashLookup, setHash, if_neg hk] at hh ⊢
      simp [hashLookup, hk, ih hh]

theorem hashLookup_setHash_ne {k q : Option Nat} {v : List Nat} (hne : q ≠ k) :
    ∀ {h : List (Option Nat × List Nat)}, hashLookup q (setHash k v h) = hashLookup q h := by
  intro h
  induction h with
  | nil => simp [setHash]
  | cons e rest ih =>
    obtain ⟨k0, l0⟩ := e
    by_cases hk : k0 = k
    · subst hk
      have hkq : ¬ (k0 = q) := fun hh => hne hh.symm
      simp [setHash, hashLookup, hkq]
    · simp only [setHash, if_neg hk, hashLookup]
      by_cases hkq : k0 = q
      · simp [hkq]
      · simp [hkq, ih]

theorem setHash_keys {k : Option Nat} {v : List Nat} :
    ∀ {h : List (Option Nat × List Nat)}, (setHash k v h).map Prod.fst = h.map Prod.fst := by
  intro h
  induction h with
  | nil => simp [setHash]
  | cons e rest ih =>
    obtain ⟨k0, l0⟩ := e
    by_cases hk : k0 = k
    · simp [setHash, hk]
    · simp [setHash, hk, ih]

theorem mem_setHash {k : Option Nat} {v : List Nat} {e : Option Nat × List Nat} :
    ∀ {h : List (Option Nat × List Nat)}, e ∈ setHash k v h → (e.1 = k ∧ e.2 = v) ∨ e ∈ h := by
  intro h
  induction h with
  | nil => simp [setHash]
  | cons q rest ih =>
    obtain ⟨k0, l0⟩ := q
    intro hh
    by_cases hk : k0 = k
    · subst hk
      simp only [setHash, if_pos rfl] at hh
      rcases List.mem_cons.mp hh with hh | hh
      · left; subst hh; exact ⟨rfl, rfl⟩
      · right; exact List.mem_cons_of_mem _ hh
    · simp only [setHash, if_neg hk] at hh
      rcases List.mem_cons.mp hh with hh | hh
      · right; subst hh; exact List.mem_cons_self _ _
      · rcases ih hh with hh | hh
        · left; exact hh
        · right; exact List.mem_cons_of_mem _ hh

theorem mem_setBuf_nodup {id : Nat} {v : VipsBuffer} {p : Nat × VipsBuffer} :
    ∀ {l : List (Nat × VipsBuffer)}, (l.map Prod.fst).Nodup → p ∈ setBuf id v l →
      (p.1 = id ∧ p.2 = v) ∨ (p ∈ l ∧ p.1 ≠ id) := by
  intro l
  induction l with
  | nil => simp [setBuf]
  | cons q rest ih =>
    obtain ⟨i, b0⟩ := q
    intro hnd h
    simp only [List.map_cons, List.nodup_cons] at hnd
    by_cases hi : i = id
    · subst hi
      simp only [setBuf, if_pos rfl] at h
      rcases List.mem_cons.mp h with h | h
      · left; subst h; exact ⟨rfl, rfl⟩
      · right
        refine ⟨List.mem_cons_of_mem _ h, ?_⟩
        intro hp
        exact hnd.1 (List.mem_map.mpr ⟨p, h, hp⟩)
    · simp only [setBuf, if_neg hi] at h
      rcases List.mem_cons.mp h with h | h
      · right
        subst h
        exact ⟨List.mem_cons_self _ _, hi⟩
      · rcases ih hnd.2 h with h | h
        · left; exact h
        · right; exact ⟨List.mem_cons_of_mem _ h.1, h.2⟩

theorem mem_setHash_nodup {k : Option Nat} {v : List Nat} {e : Option Nat × List Nat} :
    ∀ {h : List (Option Nat × List Nat)}, (h.map Prod.fst).Nodup → e ∈ setHash k v h →
      (e.1 = k ∧ e.2 = v) ∨ (e ∈ h ∧ e.1 ≠ k) := by
  intro h
  induction h with
  | nil => simp [setHash]
  | cons q rest ih =>
    obtain ⟨k0, l0⟩ := q
    intro hnd hh
    simp only [List.map_cons, List.nodup_cons] at hnd
    by_cases hk : k0 = k
    · subst hk
      simp only [setHash, if_pos rfl] at hh
      rcases List.mem_cons.mp hh with hh | hh
      · left; subst hh; exact ⟨rfl, rfl⟩
      · right
        refine ⟨List.mem_cons_of_mem _ hh, ?_⟩
        intro hp
        exact hnd.1 (List.mem_map.mpr ⟨e, hh, hp⟩)
    · simp only [setHash, if_neg hk] at hh
      rcases List.mem_cons.mp hh with hh | hh
      · right
        subst hh
        exact ⟨List.mem_cons_self _ _, hk⟩
      · rcases ih hnd.2 hh with hh | hh
        · left; exact hh
        · right; exact ⟨List.mem_cons_of_mem _ hh.1, hh.2⟩

theorem hash_value_unique {k : Option Nat} {v1 v2 : List Nat}
    {h : List (Option Nat × List Nat)} (hnd : (h.map Prod.fst).Nodup)
    (h1 : (k, v1) ∈ h) (h2 : (k, v2) ∈ h) : v1 = v2 := by
  have e1 := mem_hashLookup hnd h1
  have e2 := mem_hashLookup hnd h2
  rw [e1] at e2
  injection e2

/-- The state invariant of the buffer cache on one thread, written from the
data-model section of the spec: arena identities are unique and below the
fresh counter; `n_reserve` counts the reserve, which is bounded by
`buffer_cache_max_reserve` and holds distinct, detached, unpublished,
zero-reference buffers with zeroed width and height; reference counts are
never negative; a buffer with no references is unpublished and has zeroed
width and height; hash keys are unique; each image's published list holds
distinct buffers, each of which is `done` and targets exactly that image. -/
structure WF (s : CacheState) : Prop where
  keysNodup : (s.bufs.map Prod.fst).Nodup
  keysLt : ∀ p ∈ s.bufs, p.1 < s.nextId
  nres : s.cache.n_reserve = s.cache.reserve.length
  resBound : s.cache.reserve.length ≤ buffer_cache_max_reserve
  resNodup : s.cache.reserve.Nodup
  resOK : ∀ id ∈ s.cache.reserve, ∃ b, lookupBuf id s.bufs = some b ∧ b.ref_count = 0 ∧
    b.im = none ∧ b.done = false ∧ b.area.width = 0 ∧ b.area.height = 0
  refNonneg : ∀ p ∈ s.bufs, 0 ≤ p.2.ref_count
  zeroInv : ∀ p ∈ s.bufs, p.2.ref_count = 0 →
    p.2.done = false ∧ p.2.area.width = 0 ∧ p.2.area.height = 0
  hashNodup : (s.cache.hash.map Prod.fst).Nodup
  listNodup : ∀ e ∈ s.cache.hash, e.2.Nodup
  listOK : ∀ e ∈ s.cache.hash, ∀ id ∈ e.2, ∃ b, lookupBuf id s.bufs = some b ∧
    b.done = true ∧ b.im = e.1

/-- Everything `vips_buffer_undone` does to the state, in one statement:
the target must be in the arena; geometry-zeroing and unpublishing touch only
the target's entry, the hash entry of its image shrinks by exactly the target
when it was `done`, and nothing else moves. -/
theorem undone_spec {id : Nat} {s s' : CacheState}
    (h : vips_buffer_undone id s = some s') :
    ∃ b, lookupBuf id s.bufs = some b ∧
      s'.nextId = s.nextId ∧ s'.allocOk = s.allocOk ∧ s'.pel = s.pel ∧
      s'.cache.reserve = s.cache.reserve ∧ s'.cache.n_reserve = s.cache.n_reserve ∧
      ((b.done = false ∧ s'.cache.hash = s.cache.hash ∧
         s'.bufs = setBuf id
           { b with area := { b.area with width := 0, height := 0 } } s.bufs) ∨
       (b.done = true ∧ ∃ l, hashLookup b.im s.cache.hash = some l ∧ id ∈ l ∧
         s'.cache.hash = setHash b.im (l.erase id) s.cache.hash ∧
         s'.bufs = setBuf id { b with done := false, cache := false,
                                      area := { b.area with width := 0, height := 0 } }
           s.bufs)) := by
  unfold vips_buffer_undone at h
  split at h
  · exact absurd h (by simp)
  · rename_i b hb
    split at h
    · rename_i hdone
      split at h
      · exact absurd h (by simp)
      · rename_i l hl
        split at h
        · rename_i hm
          injection h with h
          subst h
          exact ⟨b, hb, rfl, rfl, rfl, rfl, rfl,
            Or.inr ⟨hdone, l, hl, hm, rfl, rfl⟩⟩
        · exact absurd h (by simp)
    · rename_i hdone
      injection h with h
      subst h
      exact ⟨b, hb, rfl, rfl, rfl, rfl, rfl,
        Or.inl ⟨Bool.not_eq_true _ ▸ hdone, rfl, rfl⟩⟩

theorem lookup_eq_of_eq {id : Nat} {l : List (Nat × VipsBuffer)} {b1 b2 : VipsBuffer}
    (h1 : lookupBuf id l = some b1) (h2 : lookupBuf id l = some b2) : b1 = b2 := by
  rw [h1] at h2
  injection h2

theorem wf_undone {id : Nat} {s s' : CacheState} (hW : WF s)
    (h : vips_buffer_undone id s = some s') : WF s' := by
  obtain ⟨b, hb, hnext, halloc, hpel, hres, hnres, hcase⟩ := undone_spec h
  rcases hcase with ⟨hdone, hh, hbufs⟩ | ⟨hdone, l, hl, hm, hh, hbufs⟩
  · constructor
    · rw [hbufs, setBuf_keys]; exact hW.keysNodup
    · intro p hp
      rw [hbufs] at hp
      rw [hnext]
      rcases mem_setBuf_nodup hW.keysNodup hp with ⟨hpid, _⟩ | ⟨hpmem, _⟩
      · rw [hpid]; exact hW.keysLt (id, b) (lookupBuf_mem hb)
      · exact hW.keysLt p hpmem
    · rw [hnres, hres]; exact hW.nres
    · rw [hres]; exact hW.resBound
    · rw [hres]; exact hW.resNodup
    · intro rid hrid
      rw [hres] at hrid
      obtain ⟨rb, hrb, h0, him, hd, hw, hht⟩ := hW.resOK rid hrid
      by_cases hid : rid = id
      · subst hid
        have hbb : rb = b := lookup_eq_of_eq hrb hb
        subst hbb
        refine ⟨{ rb with area := { rb.area with width := 0, height := 0 } },
          ?_, h0, him, hd, rfl, rfl⟩
        rw [hbufs]
        exact lookupBuf_setBuf_self hb
      · exact ⟨rb, by rw [hbufs, lookupBuf_setBuf_ne hid]; exact hrb, h0, him, hd, hw, hht⟩
    · intro p hp
      rw [hbufs] at hp
      rcases mem_setBuf_nodup hW.keysNodup hp with ⟨_, hpv⟩ | ⟨hpmem, _⟩
      · rw [hpv]; exact hW.refNonneg (id, b) (lookupBuf_mem hb)
      · exact hW.refNonneg p hpmem
    · intro p hp hz
      rw [hbufs] at hp
      rcases mem_setBuf_nodup hW.keysNodup hp with ⟨_, hpv⟩ | ⟨hpmem, _⟩
      · rw [hpv] at hz ⊢
        exact ⟨hdone, rfl, rfl⟩
      · exact hW.zeroInv p hpmem hz
    · rw [hh]; exact hW.hashNodup
    · intro e he; rw [hh] at he; exact hW.listNodup e he
    · intro e he id0 hid0
      rw [hh] at he
      obtain ⟨b0, hb0, hd0, him0⟩ := hW.listOK e he id0 hid0
      by_cases h0 : id0 = id
      · subst h0
        have : b0 = b := lookup_eq_of_eq hb0 hb
        rw [this, hdone] at hd0
        exact absurd hd0 (by simp)
      · exact ⟨b0, by rw [hbufs, lookupBuf_setBuf_ne h0]; exact hb0, hd0, him0⟩
  · have hlmem : (b.im, l) ∈ s.cache.hash := hashLookup_mem hl
    have hlnd : l.Nodup := hW.listNodup (b.im, l) hlmem
    constructor
    · rw [hbufs, setBuf_keys]; exact hW.keysNodup
    · intro p hp
      rw [hbufs] at hp
      rw [hnext]
      rcases mem_setBuf_nodup hW.keysNodup hp with ⟨hpid, _⟩ | ⟨hpmem, _⟩
      · rw [hpid]; exact hW.keysLt (id, b) (lookupBuf_mem hb)
      · exact hW.keysLt p hpmem
    · rw [hnres, hres]; exact hW.nres
    · rw [hres]; exact hW.resBound
    · rw [hres]; exact hW.resNodup
    · intro rid hrid
      rw [hres] at hrid
      obtain ⟨rb, hrb, h0, him, hd, hw, hht⟩ := hW.resOK rid hrid
      by_cases hid : rid = id
      · subst hid
        have hbb : rb = b := lookup_eq_of_eq hrb hb
        rw [hbb, hdone] at hd
        exact absurd hd (by simp)
      · exact ⟨rb, by rw [hbufs, lookupBuf_setBuf_ne hid]; exact hrb, h0, him, hd, hw, hht⟩
    · intro p hp
      rw [hbufs] at hp
      rcases mem_setBuf_nodup hW.keysNodup hp with ⟨_, hpv⟩ | ⟨hpmem, _⟩
      · rw [hpv]; exact hW.refNonneg (id, b) (lookupBuf_mem hb)
      · exact hW.refNonneg p hpmem
    · intro p hp hz
      rw [hbufs] at hp
      rcases mem_setBuf_nodup hW.keysNodup hp with ⟨_, hpv⟩ | ⟨hpmem, _⟩
      · rw [hpv]
        exact ⟨rfl, rfl, rfl⟩
      · exact hW.zeroInv p hpmem hz
    · rw [hh, setHash_keys]; exact hW.hashNodup
    · intro e he
      rw [hh] at he
      rcases mem_setHash_nodup hW.hashNodup he with ⟨_, hv⟩ | ⟨hmem, _⟩
      · rw [hv]; exact hlnd.erase _
      · exact hW.listNodup e hmem
    · intro e he id0 hid0
      rw [hh] at he
      rcases mem_setHash_nodup hW.hashNodup he with ⟨hk, hv⟩ | ⟨hmem, hkne⟩
      · rw [hv] at hid0
        have hne : id0 ≠ id ∧ id0 ∈ l := (List.Nodup.mem_erase_iff hlnd).mp hid0
        obtain ⟨b0, hb0, hd0, him0⟩ := hW.listOK (b.im, l) hlmem id0 hne.2
        exact ⟨b0, by rw [hbufs, lookupBuf_setBuf_ne hne.1]; exact hb0, hd0,
          by rw [hk]; exact him0⟩
      · obtain ⟨b0, hb0, hd0, him0⟩ := hW.listOK e hmem id0 hid0
        by_cases h0 : id0 = id
        · subst h0
          have : b0 = b := lookup_eq_of_eq hb0 hb
          rw [this] at him0
          exact absurd him0.symm hkne
        · exact ⟨b0, by rw [hbufs, lookupBuf_setBuf_ne h0]; exact hb0, hd0, him0⟩

/-- Everything `vips_buffer_done` does to the state: a no-op when the buffer
is already published, else the target's entry gains the `done`/`cache` marks
and the hash entry for its image gains the target at its head (the entry
being created when absent). -/
theorem done_spec {id : Nat} {s s' : CacheState}
    (h : vips_buffer_done id s = some s') :
    ∃ b, lookupBuf id s.bufs = some b ∧
      s'.nextId = s.nextId ∧ s'.allocOk = s.allocOk ∧ s'.pel = s.pel ∧
      s'.cache.reserve = s.cache.reserve ∧ s'.cache.n_reserve = s.cache.n_reserve ∧
      ((b.done = true ∧ s' = s) ∨
       (b.done = false ∧
         s'.bufs = setBuf id { b with done := true, cache := true } s.bufs ∧
         ((hashLookup b.im s.cache.hash = none ∧
            s'.cache.hash = (b.im, [id]) :: s.cache.hash) ∨
          (∃ l, hashLookup b.im s.cache.hash = some l ∧ id ∉ l ∧
            s'.cache.hash = setHash b.im (id :: l) s.cache.hash)))) := by
  unfold vips_buffer_done at h
  split at h
  · exact absurd h (by simp)
  · rename_i b hb
    split at h
    · rename_i hdone
      injection h with h
      subst h
      exact ⟨b, hb, rfl, rfl, rfl, rfl, rfl, Or.inl ⟨hdone, rfl⟩⟩
    · rename_i hdone
      have hdone : b.done = false := Bool.not_eq_true _ ▸ hdone
      split at h
      · rename_i hl
        injection h with h
        subst h
        exact ⟨b, hb, rfl, rfl, rfl, rfl, rfl,
          Or.inr ⟨hdone, rfl, Or.inl ⟨hl, rfl⟩⟩⟩
      · rename_i l hl
        split at h
        · exact absurd h (by simp)
        · rename_i hm
          injection h with h
          subst h
          exact ⟨b, hb, rfl, rfl, rfl, rfl, rfl,
            Or.inr ⟨hdone, rfl, Or.inr ⟨l, hl, hm, rfl⟩⟩⟩

theorem wf_done {id : Nat} {s s' : CacheState} (hW : WF s)
    (hlive : ∀ b, lookupBuf id s.bufs = some b → 0 < b.ref_count)
    (h : vips_buffer_done id s = some s') : WF s' := by
  obtain ⟨b, hb, hnext, halloc, hpel, hres, hnres, hcase⟩ := done_spec h
  rcases hcase with ⟨_, hss⟩ | ⟨hdone, hbufs, hhash⟩
  · rw [hss]; exact hW
  have hpos : 0 < b.ref_count := hlive b hb
  have hcore : ∀ e ∈ s.cache.hash, ∀ id0 ∈ e.2, id0 ≠ id := by
    intro e he id0 hid0 heq
    subst heq
    obtain ⟨b0, hb0, hd0, _⟩ := hW.listOK e he id0 hid0
    have : b0 = b := lookup_eq_of_eq hb0 hb
    rw [this, hdone] at hd0
    exact absurd hd0 (by simp)
  constructor
  · rw [hbufs, setBuf_keys]; exact hW.keysNodup
  · intro p hp
    rw [hbufs] at hp
    rw [hnext]
    rcases mem_setBuf_nodup hW.keysNodup hp with ⟨hpid, _⟩ | ⟨hpmem, _⟩
    · rw [hpid]; exact hW.keysLt (id, b) (lookupBuf_mem hb)
    · exact hW.keysLt p hpmem
  · rw [hnres, hres]; exact hW.nres
  · rw [hres]; exact hW.resBound
  · rw [hres]; exact hW.resNodup
  · intro rid hrid
    rw [hres] at hrid
    obtain ⟨rb, hrb, h0, him, hd, hw, hht⟩ := hW.resOK rid hrid
    by_cases hid : rid = id
    · subst hid
      have hbb : rb = b := lookup_eq_of_eq hrb hb
      rw [hbb] at h0
      rw [h0] at hpos
      exact absurd hpos (by simp)
    · exact ⟨rb, by rw [hbufs, lookupBuf_setBuf_ne hid]; exact hrb, h0, him, hd, hw, hht⟩
  · intro p hp
    rw [hbufs] at hp
    rcases mem_setBuf_nodup hW.keysNodup hp with ⟨_, hpv⟩ | ⟨hpmem, _⟩
    · rw [hpv]; exact hW.refNonneg (id, b) (lookupBuf_mem hb)
    · exact hW.refNonneg p hpmem
  · intro p hp hz
    rw [hbufs] at hp
    rcases mem_setBuf_nodup hW.keysNodup hp with ⟨_, hpv⟩ | ⟨hpmem, _⟩
    · rw [hpv] at hz
      have : b.ref_count = 0 := hz
      rw [this] at hpos
      exact absurd hpos (by simp)
    · exact hW.zeroInv p hpmem hz
  · rcases hhash with ⟨hl, hh⟩ | ⟨l, hl, hm, hh⟩
    · rw [hh]
      simp only [List.map_cons, List.nodup_cons]
      exact ⟨hashLookup_none_iff.mp hl, hW.hashNodup⟩
    · rw [hh, setHash_keys]; exact hW.hashNodup
  · intro e he
    rcases hhash with ⟨hl, hh⟩ | ⟨l, hl, hm, hh⟩
    · rw [hh] at he
      rcases List.mem_cons.mp he with he | he
      · rw [he]; simp
      · exact hW.listNodup e he
    · rw [hh] at he
      rcases mem_setHash_nodup hW.hashNodup he with ⟨_, hv⟩ | ⟨hmem, _⟩
      · rw [hv]
        exact List.nodup_cons.mpr ⟨hm, hW.listNodup (b.im, l) (hashLookup_mem hl)⟩
      · exact hW.listNodup e hmem
  · intro e he id0 hid0
    rcases hhash with ⟨hl, hh⟩ | ⟨l, hl, hm, hh⟩
    · rw [hh] at he
      rcases List.mem_cons.mp he with he | he
      · rw [he] at hid0 ⊢
        simp only [List.mem_singleton] at hid0
        subst hid0
        exact ⟨{ b with done := true, cache := true },
          by rw [hbufs]; exact lookupBuf_setBuf_self hb, rfl, rfl⟩
      · obtain ⟨b0, hb0, hd0, him0⟩ := hW.listOK e he id0 hid0
        have hne : id0 ≠ id := hcore e he id0 hid0
        exact ⟨b0, by rw [hbufs, lookupBuf_setBuf_ne hne]; exact hb0, hd0, him0⟩
    · rw [hh] at he
      rcases mem_setHash_nodup hW.hashNodup he with ⟨hk, hv⟩ | ⟨hmem, hkne⟩
      · rw [hv] at hid0
        rcases List.mem_cons.mp hid0 with h0 | h0
        · subst h0
          refine ⟨{ b with done := true, cache := true },
            by rw [hbufs]; exact lookupBuf_setBuf_self hb, rfl, ?_⟩
          rw [hk]
        · obtain ⟨b0, hb0, hd0, him0⟩ := hW.listOK (b.im, l) (hashLookup_mem hl) id0 h0
          have hne : id0 ≠ id := hcore (b.im, l) (hashLookup_mem hl) id0 h0
          exact ⟨b0, by rw [hbufs, lookupBuf_setBuf_ne hne]; exact hb0, hd0,
            by rw [hk]; exact him0⟩
      · obtain ⟨b0, hb0, hd0, him0⟩ := hW.listOK e hmem id0 hid0
        have hne : id0 ≠ id := hcore e hmem id0 hid0
        exact ⟨b0, by rw [hbufs, lookupBuf_setBuf_ne hne]; exact hb0, hd0, him0⟩

theorem eraseBuf_setBuf {id : Nat} {v : VipsBuffer} :
    ∀ {l : List (Nat × VipsBuffer)}, eraseBuf id (setBuf id v l) = eraseBuf id l := by
  intro l
  induction l with
  | nil => simp [setBuf, eraseBuf]
  | cons p rest ih =>
    obtain ⟨i, b0⟩ := p
    by_cases hi : i = id
    · simp [setBuf, eraseBuf, hi]
    · simp [setBuf, eraseBuf, hi, ih]

theorem wf_congr {s s' : CacheState} (hW : WF s) (hbufs : s'.bufs = s.bufs)
    (hc : s'.cache = s.cache) (hn : s'.nextId = s.nextId) : WF s' := by
  constructor
  · rw [hbufs]; exact hW.keysNodup
  · intro p hp; rw [hn]; exact hW.keysLt p (hbufs ▸ hp)
  · rw [hc]; exact hW.nres
  · rw [hc]; exact hW.resBound
  · rw [hc]; exact hW.resNodup
  · intro rid hrid
    rw [hc] at hrid
    obtain ⟨rb, hrb, hrest⟩ := hW.resOK rid hrid
    exact ⟨rb, by rw [hbufs]; exact hrb, hrest⟩
  · intro p hp; exact hW.refNonneg p (hbufs ▸ hp)
  · intro p hp; exact hW.zeroInv p (hbufs ▸ hp)
  · rw [hc]; exact hW.hashNodup
  · intro e he; rw [hc] at he; exact hW.listNodup e he
  · intro e he id0 hid0
    rw [hc] at he
    obtain ⟨b0, hb0, hrest⟩ := hW.listOK e he id0 hid0
    exact ⟨b0, by rw [hbufs]; exact hb0, hrest⟩

theorem not_mem_reserve_of_ref_ne_zero {s : CacheState} (hW : WF s) {id : Nat}
    {b : VipsBuffer} (hb : lookupBuf id s.bufs = some b) (hnz : b.ref_count ≠ 0) :
    id ∉ s.cache.reserve := by
  intro hmem
  obtain ⟨rb, hrb, h0, _⟩ := hW.resOK id hmem
  have hbb : b = rb := lookup_eq_of_eq hb hrb
  rw [hbb] at hnz
  exact hnz h0

/-- After the target buffer has been unpublished (hash shape as produced by
`vips_buffer_undone`, or untouched if the target was never published), all
published-list members are distinct from the target and keep their facts. -/
theorem unpub_lists_ok {s : CacheState} (hW : WF s) {id : Nat} {b : VipsBuffer}
    (hb : lookupBuf id s.bufs = some b) {hash2 : List (Option Nat × List Nat)}
    (hcase : (b.done = false ∧ hash2 = s.cache.hash) ∨
      (b.done = true ∧ ∃ l, hashLookup b.im s.cache.hash = some l ∧ id ∈ l ∧
        hash2 = setHash b.im (l.erase id) s.cache.hash)) :
    (hash2.map Prod.fst).Nodup ∧ (∀ e ∈ hash2, e.2.Nodup) ∧
      ∀ e ∈ hash2, ∀ id0 ∈ e.2, id0 ≠ id ∧
        ∃ b0, lookupBuf id0 s.bufs = some b0 ∧ b0.done = true ∧ b0.im = e.1 := by
  rcases hcase with ⟨hdone, hh⟩ | ⟨hdone, l, hl, hm, hh⟩
  · subst hh
    refine ⟨hW.hashNodup, hW.listNodup, ?_⟩
    intro e he id0 hid0
    obtain ⟨b0, hb0, hd0, him0⟩ := hW.listOK e he id0 hid0
    refine ⟨?_, b0, hb0, hd0, him0⟩
    rintro rfl
    have hbb : b0 = b := lookup_eq_of_eq hb0 hb
    rw [hbb, hdone] at hd0
    exact absurd hd0 (by simp)
  · have hlmem : (b.im, l) ∈ s.cache.hash := hashLookup_mem hl
    have hlnd : l.Nodup := hW.listNodup _ hlmem
    subst hh
    refine ⟨by rw [setHash_keys]; exact hW.hashNodup, ?_, ?_⟩
    · intro e he
      rcases mem_setHash_nodup hW.hashNodup he with ⟨_, hv⟩ | ⟨hmem, _⟩
      · rw [hv]; exact hlnd.erase _
      · exact hW.listNodup e hmem
    · intro e he id0 hid0
      rcases mem_setHash_nodup hW.hashNodup he with ⟨hk, hv⟩ | ⟨hmem, hkne⟩
      · rw [hv] at hid0
        have hne := (List.Nodup.mem_erase_iff hlnd).mp hid0
        obtain ⟨b0, hb0, hd0, him0⟩ := hW.listOK _ hlmem id0 hne.2
        exact ⟨hne.1, b0, hb0, hd0, by rw [hk]; exact him0⟩
      · obtain ⟨b0, hb0, hd0, him0⟩ := hW.listOK e hmem id0 hid0
        refine ⟨?_, b0, hb0, hd0, him0⟩
        rintro rfl
        have hbb : b0 = b := lookup_eq_of_eq hb0 hb
        rw [hbb] at him0
        exact absurd him0.symm hkne

/-- Overwriting an unreserved buffer with a value that keeps its published
mark and image, has an admissible reference count, and is detached-looking
when at zero references, preserves the invariant, as long as cache and
counter are untouched. -/
theorem wf_setBuf_samepub {s s' : CacheState} (hW : WF s) {id : Nat} {b v : VipsBuffer}
    (hb : lookupBuf id s.bufs = some b)
    (hbufs : s'.bufs = setBuf id v s.bufs)
    (hc : s'.cache = s.cache) (hn : s'.nextId = s.nextId)
    (hnres : id ∉ s.cache.reserve)
    (href : 0 ≤ v.ref_count)
    (hz : v.ref_count = 0 → v.done = false ∧ v.area.width = 0 ∧ v.area.height = 0)
    (hd : v.done = b.done) (him : v.im = b.im) :
    WF s' := by
  constructor
  · rw [hbufs, setBuf_keys]; exact hW.keysNodup
  · intro p hp
    rw [hbufs] at hp
    rw [hn]
    rcases mem_setBuf_nodup hW.keysNodup hp with ⟨hpid, _⟩ | ⟨hpmem, _⟩
    · rw [hpid]; exact hW.keysLt (id, b) (lookupBuf_mem hb)
    · exact hW.keysLt p hpmem
  · rw [hc]; exact hW.nres
  · rw [hc]; exact hW.resBound
  · rw [hc]; exact hW.resNodup
  · intro rid hrid
    rw [hc] at hrid
    obtain ⟨rb, hrb, hrest⟩ := hW.resOK rid hrid
    have hne : rid ≠ id := by rintro rfl; exact hnres hrid
    exact ⟨rb, by rw [hbufs, lookupBuf_setBuf_ne hne]; exact hrb, hrest⟩
  · intro p hp
    rw [hbufs] at hp
    rcases mem_setBuf_nodup hW.keysNodup hp with ⟨_, hpv⟩ | ⟨hpmem, _⟩
    · rw [hpv]; exact href
    · exact hW.refNonneg p hpmem
  · intro p hp hpz
    rw [hbufs] at hp
    rcases mem_setBuf_nodup hW.keysNodup hp with ⟨_, hpv⟩ | ⟨hpmem, _⟩
    · rw [hpv] at hpz ⊢
      exact hz hpz
    · exact hW.zeroInv p hpmem hpz
  · rw [hc]; exact hW.hashNodup
  · intro e he; rw [hc] at he; exact hW.listNodup e he
  · intro e he id0 hid0
    rw [hc] at he
    obtain ⟨b0, hb0, hd0, him0⟩ := hW.listOK e he id0 hid0
    by_cases hne : id0 = id
    · subst hne
      have hbb : b0 = b := lookup_eq_of_eq hb0 hb
      refine ⟨v, by rw [hbufs]; exact lookupBuf_setBuf_self hb, ?_, ?_⟩
      · rw [hd, ← hbb]; exact hd0
      · rw [him, ← hbb]; exact him0
    · exact ⟨b0, by rw [hbufs, lookupBuf_setBuf_ne hne]; exact hb0, hd0, him0⟩

/-- Parking a detached buffer on the reserve (the last-unref path with room
left) preserves the invariant. -/
theorem wf_park {s s' : CacheState} (hW : WF s) {id : Nat} {b bPark : VipsBuffer}
    (hb : lookupBuf id s.bufs = some b)
    (hnz : b.ref_count ≠ 0)
    (hroom : s.cache.n_reserve < buffer_cache_max_reserve)
    (hcase : (b.done = false ∧ s'.cache.hash = s.cache.hash) ∨
      (b.done = true ∧ ∃ l, hashLookup b.im s.cache.hash = some l ∧ id ∈ l ∧
        s'.cache.hash = setHash b.im (l.erase id) s.cache.hash))
    (hbufs : s'.bufs = setBuf id bPark s.bufs)
    (hresv : s'.cache.reserve = id :: s.cache.reserve)
    (hnres2 : s'.cache.n_reserve = s.cache.n_reserve + 1)
    (hnext : s'.nextId = s.nextId)
    (hpark : bPark.ref_count = 0 ∧ bPark.im = none ∧ bPark.done = false ∧
      bPark.area.width = 0 ∧ bPark.area.height = 0) : WF s' := by
  have hnotres : id ∉ s.cache.reserve := not_mem_reserve_of_ref_ne_zero hW hb hnz
  obtain ⟨hhnd, hlnd, hlok⟩ := unpub_lists_ok hW hb hcase
  constructor
  · rw [hbufs, setBuf_keys]; exact hW.keysNodup
  · intro p hp
    rw [hbufs] at hp
    rw [hnext]
    rcases mem_setBuf_nodup hW.keysNodup hp with ⟨hpid, _⟩ | ⟨hpmem, _⟩
    · rw [hpid]; exact hW.keysLt (id, b) (lookupBuf_mem hb)
    · exact hW.keysLt p hpmem
  · rw [hresv, hnres2, List.length_cons, hW.nres]
  · rw [hresv, List.length_cons]
    have := hW.nres
    omega
  · rw [hresv]
    exact List.nodup_cons.mpr ⟨hnotres, hW.resNodup⟩
  · intro rid hrid
    rw [hresv] at hrid
    rcases List.mem_cons.mp hrid with hr1 | hr2
    · subst hr1
      exact ⟨bPark, by rw [hbufs]; exact lookupBuf_setBuf_self hb,
        hpark.1, hpark.2.1, hpark.2.2.1, hpark.2.2.2.1, hpark.2.2.2.2⟩
    · obtain ⟨rb, hrb, hrest⟩ := hW.resOK rid hr2
      have hne : rid ≠ id := by rintro rfl; exact hnotres hr2
      exact ⟨rb, by rw [hbufs, lookupBuf_setBuf_ne hne]; exact hrb, hrest⟩
  · intro p hp
    rw [hbufs] at hp
    rcases mem_setBuf_nodup hW.keysNodup hp with ⟨_, hpv⟩ | ⟨hpmem, _⟩
    · rw [hpv, hpark.1]
    · exact hW.refNonneg p hpmem
  · intro p hp hpz
    rw [hbufs] at hp
    rcases mem_setBuf_nodup hW.keysNodup hp with ⟨_, hpv⟩ | ⟨hpmem, _⟩
    · rw [hpv]
      exact ⟨hpark.2.2.1, hpark.2.2.2.1, hpark.2.2.2.2⟩
    · exact hW.zeroInv p hpmem hpz
  · exact hhnd
  · exact hlnd
  · intro e he id0 hid0
    obtain ⟨hne, b0, hb0, hd0, him0⟩ := hlok e he id0 hid0
    exact ⟨b0, by rw [hbufs, lookupBuf_setBuf_ne hne]; exact hb0, hd0, him0⟩

/-- Permanently freeing an unpublished, unreserved buffer preserves the
invariant. -/
theorem wf_erase {s s' : CacheState} (hW : WF s) {id : Nat} {b : VipsBuffer}
    (hb : lookupBuf id s.bufs = some b)
    (hnotres : id ∉ s.cache.reserve)
    (hcase : (b.done = false ∧ s'.cache.hash = s.cache.hash) ∨
      (b.done = true ∧ ∃ l, hashLookup b.im s.cache.hash = some l ∧ id ∈ l ∧
        s'.cache.hash = setHash b.im (l.erase id) s.cache.hash))
    (hbufs : s'.bufs = eraseBuf id s.bufs)
    (hresv : s'.cache.reserve = s.cache.reserve)
    (hnres2 : s'.cache.n_reserve = s.cache.n_reserve)
    (hnext : s'.nextId = s.nextId) : WF s' := by
  obtain ⟨hhnd, hlnd, hlok⟩ := unpub_lists_ok hW hb hcase
  constructor
  · rw [hbufs]; exact eraseBuf_keys_nodup hW.keysNodup
  · intro p hp
    rw [hbufs] at hp
    rw [hnext]
    exact hW.keysLt p (mem_eraseBuf hp)
  · rw [hresv, hnres2, hW.nres]
  · rw [hresv]; exact hW.resBound
  · rw [hresv]; exact hW.resNodup
  · intro rid hrid
    rw [hresv] at hrid
    obtain ⟨rb, hrb, hrest⟩ := hW.resOK rid hrid
    have hne : rid ≠ id := by rintro rfl; exact hnotres hrid
    exact ⟨rb, by rw [hbufs, lookupBuf_eraseBuf_ne hne]; exact hrb, hrest⟩
  · intro p hp
    rw [hbufs] at hp
    exact hW.refNonneg p (mem_eraseBuf hp)
  · intro p hp
    rw [hbufs] at hp
    exact hW.zeroInv p (mem_eraseBuf hp)
  · exact hhnd
  · exact hlnd
  · intro e he id0 hid0
    obtain ⟨hne, b0, hb0, hd0, him0⟩ := hlok e he id0 hid0
    exact ⟨b0, by rw [hbufs, lookupBuf_eraseBuf_ne hne]; exact hb0, hd0, him0⟩

theorem wf_unref {id : Nat} {s s' : CacheState} (hW : WF s)
    (h : vips_buffer_unref id s = some s') : WF s' := by
  simp only [vips_buffer_unref] at h
  split at h
  · exact absurd h (by simp)
  · rename_i b hb
    split at h
    · exact absurd h (by simp)
    · rename_i hle
      have hpos : 0 < b.ref_count := by omega
      split at h
      · rename_i heq
        split at h
        · exact absurd h (by simp)
        · rename_i s2 hundone
          obtain ⟨b1, hb1, hnext2, halloc2, hpel2, hres2, hnres2, hcase⟩ :=
            undone_spec hundone
          have hb1set : lookupBuf id
              (setBuf id { b with ref_count := b.ref_count - 1 } s.bufs)
              = some { b with ref_count := b.ref_count - 1 } := lookupBuf_setBuf_self hb
          have hbb1 : b1 = { b with ref_count := b.ref_count - 1 } :=
            lookup_eq_of_eq hb1 hb1set
          subst hbb1
          have hnz : b.ref_count ≠ 0 := by omega
          have hcase2 : (b.done = false ∧ s2.cache.hash = s.cache.hash) ∨
              (b.done = true ∧ ∃ l, hashLookup b.im s.cache.hash = some l ∧ id ∈ l ∧
                s2.cache.hash = setHash b.im (l.erase id) s.cache.hash) := by
            rcases hcase with ⟨hd, hh, _⟩ | ⟨hd, l, hl, hm, hh, _⟩
            · exact Or.inl ⟨hd, hh⟩
            · exact Or.inr ⟨hd, l, hl, hm, hh⟩
          split at h
          · rename_i hroom
            split at h
            · exact absurd h (by simp)
            · rename_i b2 hb2
              injection h with h
              subst h
              refine @wf_park s _ hW id b
                ({ b2 with done := false, cache := false, im := none,
                           area := { b2.area with width := 0, height := 0 } })
                hb hnz (by rw [hnres2] at hroom; exact hroom)
                hcase2 ?_ ?_ ?_ ?_ ?_
              · show setBuf id _ s2.bufs = setBuf id _ s.bufs
                rcases hcase with ⟨_, _, hbufs2⟩ | ⟨_, _, _, _, _, hbufs2⟩ <;>
                  rw [hbufs2, setBuf_setBuf, setBuf_setBuf]
              · show id :: s2.cache.reserve = id :: s.cache.reserve
                rw [hres2]
              · show s2.cache.n_reserve + 1 = s.cache.n_reserve + 1
                rw [hnres2]
              · show s2.nextId = s.nextId
                rw [hnext2]
              · have hb2r : b2.ref_count = 0 := by
                  rcases hcase with ⟨_, _, hbufs2⟩ | ⟨_, _, _, _, _, hbufs2⟩ <;>
                  · have hb2v := lookup_eq_of_eq hb2
                      (by rw [hbufs2, setBuf_setBuf]; exact lookupBuf_setBuf_self hb)
                    rw [hb2v]
                    exact heq
                exact ⟨hb2r, rfl, rfl, rfl, rfl⟩
          · rename_i hfull
            injection h with h
            subst h
            have hnotres : id ∉ s.cache.reserve :=
              not_mem_reserve_of_ref_ne_zero hW hb hnz
            rcases hcase with ⟨hd, hh, hbufs2⟩ | ⟨hd, l, hl, hm, hh, hbufs2⟩
            · refine wf_erase hW hb hnotres hcase2 ?_ ?_ ?_ ?_
              · show eraseBuf id s2.bufs = eraseBuf id s.bufs
                rw [hbufs2, eraseBuf_setBuf, eraseBuf_setBuf]
              · show s2.cache.reserve = s.cache.reserve
                rw [hres2]
              · show s2.cache.n_reserve = s.cache.n_reserve
                rw [hnres2]
              · show s2.nextId = s.nextId
                rw [hnext2]
            · refine wf_erase hW hb hnotres hcase2 ?_ ?_ ?_ ?_
              · show eraseBuf id s2.bufs = eraseBuf id s.bufs
                rw [hbufs2, eraseBuf_setBuf, eraseBuf_setBuf]
              · show s2.cache.reserve = s.cache.reserve
                rw [hres2]
              · show s2.cache.n_reserve = s.cache.n_reserve
                rw [hnres2]
              · show s2.nextId = s.nextId
                rw [hnext2]
      · rename_i hne
        injection h with h
        subst h
        refine wf_setBuf_samepub hW hb rfl rfl rfl
          (not_mem_reserve_of_ref_ne_zero hW hb (by omega))
          (by show (0 : Int) ≤ b.ref_count - 1; omega) ?_ rfl rfl
        intro hzz
        exact absurd hzz hne

theorem malloc_spec {s : CacheState} {ok : Bool} {s1 : CacheState}
    (h : vips_tracked_malloc s = (ok, s1)) :
    s1.bufs = s.bufs ∧ s1.cache = s.cache ∧ s1.nextId = s.nextId ∧ s1.pel = s.pel := by
  unfold vips_tracked_malloc at h
  split at h <;>
  · injection h with h1 h2
    subst h2
    exact ⟨rfl, rfl, rfl, rfl⟩


theorem wf_move {id : Nat} {r : VipsRect} {ok : Bool} {s s' : CacheState} (hW : WF s)
    (h : buffer_move id r s = some (ok, s')) : WF s' := by
  simp only [buffer_move] at h
  split at h
  · exact absurd h (by simp)
  · rename_i b hb
    split at h
    · rename_i href
      split at h
      · exact absurd h (by simp)
      · rename_i s1 hundone
        have hW1 : WF s1 := wf_undone hW hundone
        split at h
        · exact absurd h (by simp)
        · rename_i b1 hb1
          obtain ⟨b0, hb0, _, _, _, _, _, hcase⟩ := undone_spec hundone
          have hbb0 : b0 = b := lookup_eq_of_eq hb0 hb
          subst hbb0
          have hb1v : b1.ref_count = b0.ref_count := by
            rcases hcase with ⟨hd, _, hbufs1⟩ | ⟨_, _, _, _, _, hbufs1⟩ <;>
            · have hq := lookup_eq_of_eq hb1
                (by rw [hbufs1]; exact lookupBuf_setBuf_self hb)
              rw [hq]
          have hb1r : b1.ref_count = 1 := by rw [hb1v, href]
          have hb1nres : id ∉ s1.cache.reserve :=
            not_mem_reserve_of_ref_ne_zero hW1 hb1 (by rw [hb1r]; norm_num)
          split at h
          · exact absurd h (by simp)
          · rename_i imId him
            split at h
            · rename_i hrealloc
              split at h
              · rename_i s3 hmalloc
                injection h with h
                injection h with h1 h2
                subst h2
                obtain ⟨hm1, hm2, hm3, _⟩ := malloc_spec hmalloc
                have hW2 : WF { s1 with bufs := setBuf id { b1 with area := r, bsize := sizeofBuffer (s.pel imId) r, buf := false } s1.bufs } := by
                  refine wf_setBuf_samepub hW1 hb1 rfl rfl rfl hb1nres ?_ ?_ rfl rfl
                  · show (0 : Int) ≤ b1.ref_count
                    rw [hb1r]
                    norm_num
                  · intro hzz
                    rw [hb1r] at hzz
                    exact absurd hzz (by norm_num)
                have hW3 : WF s3 := wf_congr hW2 hm1 hm2 hm3
                have hbF : lookupBuf id s3.bufs = some { b1 with area := r, bsize := sizeofBuffer (s.pel imId) r, buf := false } := by
                  rw [hm1]
                  exact lookupBuf_setBuf_self hb1
                refine wf_setBuf_samepub hW3 hbF rfl rfl rfl ?_ ?_ ?_ rfl rfl
                · rw [hm2]
                  exact hb1nres
                · show (0 : Int) ≤ b1.ref_count
                  rw [hb1r]
                  norm_num
                · intro hzz
                  rw [hb1r] at hzz
                  exact absurd hzz (by norm_num)
              · rename_i s3 hmalloc
                injection h with h
                injection h with h1 h2
                subst h2
                obtain ⟨hm1, hm2, hm3, _⟩ := malloc_spec hmalloc
                have hW2 : WF { s1 with bufs := setBuf id { b1 with area := r, bsize := sizeofBuffer (s.pel imId) r, buf := false } s1.bufs } := by
                  refine wf_setBuf_samepub hW1 hb1 rfl rfl rfl hb1nres ?_ ?_ rfl rfl
                  · show (0 : Int) ≤ b1.ref_count
                    rw [hb1r]
                    norm_num
                  · intro hzz
                    rw [hb1r] at hzz
                    exact absurd hzz (by norm_num)
                exact wf_congr hW2 hm1 hm2 hm3
            · injection h with h
              injection h with h1 h2
              subst h2
              refine wf_setBuf_samepub hW1 hb1 rfl rfl rfl hb1nres ?_ ?_ rfl rfl
              · show (0 : Int) ≤ b1.ref_count
                rw [hb1r]
                norm_num
              · intro hzz
                rw [hb1r] at hzz
                exact absurd hzz (by norm_num)
    · exact absurd h (by simp)

theorem lookupBuf_cons_self {id : Nat} {v : VipsBuffer} {l : List (Nat × VipsBuffer)} :
    lookupBuf id ((id, v) :: l) = some v := by
  simp [lookupBuf]

theorem lookupBuf_cons_ne {i id : Nat} {v : VipsBuffer} {l : List (Nat × VipsBuffer)}
    (h : i ≠ id) : lookupBuf id ((i, v) :: l) = lookupBuf id l := by
  simp [lookupBuf, h]

/-- After a `buffer_move` (successful or not) the target is still in the
arena, unpublished, exclusively held, on the same image, and the cache's
reserve, counter and fresh counter are untouched. -/
theorem move_target {id : Nat} {r : VipsRect} {ok : Bool} {s s' : CacheState}
    (h : buffer_move id r s = some (ok, s')) :
    ∃ b bb, lookupBuf id s.bufs = some b ∧ b.ref_count = 1 ∧
      lookupBuf id s'.bufs = some bb ∧ bb.done = false ∧ bb.ref_count = 1 ∧
      bb.im = b.im ∧ bb.area = r ∧ s'.cache.reserve = s.cache.reserve ∧
      s'.cache.n_reserve = s.cache.n_reserve ∧ s'.nextId = s.nextId := by
  simp only [buffer_move] at h
  split at h
  · exact absurd h (by simp)
  · rename_i b hb
    split at h
    · rename_i href
      split at h
      · exact absurd h (by simp)
      · rename_i s1 hundone
        split at h
        · exact absurd h (by simp)
        · rename_i b1 hb1
          obtain ⟨b0, hb0, hnext1, _, _, hres1, hnres1, hcase⟩ := undone_spec hundone
          have hbb0 : b0 = b := lookup_eq_of_eq hb0 hb
          subst hbb0
          have hb1v : b1.ref_count = b0.ref_count ∧ b1.done = false ∧ b1.im = b0.im := by
            rcases hcase with ⟨hd, _, hbufs1⟩ | ⟨_, _, _, _, _, hbufs1⟩
            · have hq := lookup_eq_of_eq hb1
                (by rw [hbufs1]; exact lookupBuf_setBuf_self hb)
              rw [hq]
              exact ⟨rfl, hd, rfl⟩
            · have hq := lookup_eq_of_eq hb1
                (by rw [hbufs1]; exact lookupBuf_setBuf_self hb)
              rw [hq]
              exact ⟨rfl, rfl, rfl⟩
          have hb1r : b1.ref_count = 1 := by rw [hb1v.1, href]
          split at h
          · exact absurd h (by simp)
          · rename_i imId him
            split at h
            · rename_i hrealloc
              split at h
              · rename_i s3 hmalloc
                injection h with h
                injection h with h1 h2
                subst h2
                obtain ⟨hm1, hm2, hm3, _⟩ := malloc_spec hmalloc
                refine ⟨b0, { b1 with area := r, bsize := sizeofBuffer (s.pel imId) r, buf := true }, hb, href, ?_, hb1v.2.1, hb1r, hb1v.2.2, rfl, ?_, ?_, ?_⟩
                · show lookupBuf id (setBuf id { b1 with area := r, bsize := sizeofBuffer (s.pel imId) r, buf := true } s3.bufs) = _
                  rw [hm1]
                  exact lookupBuf_setBuf_self (lookupBuf_setBuf_self hb1)
                · show s3.cache.reserve = s.cache.reserve
                  rw [hm2]
                  exact hres1
                · show s3.cache.n_reserve = s.cache.n_reserve
                  rw [hm2]
                  exact hnres1
                · show s3.nextId = s.nextId
                  rw [hm3]
                  exact hnext1
              · rename_i s3 hmalloc
                injection h with h
                injection h with h1 h2
                subst h2
                obtain ⟨hm1, hm2, hm3, _⟩ := malloc_spec hmalloc
                refine ⟨b0, { b1 with area := r, bsize := sizeofBuffer (s.pel imId) r, buf := false }, hb, href, ?_, hb1v.2.1, hb1r, hb1v.2.2, rfl, ?_, ?_, ?_⟩
                · rw [hm1]
                  exact lookupBuf_setBuf_self hb1
                · rw [hm2]
                  exact hres1
                · rw [hm2]
                  exact hnres1
                · rw [hm3]
                  exact hnext1
            · injection h with h
              injection h with h1 h2
              subst h2
              refine ⟨b0, { b1 with area := r }, hb, href, ?_, hb1v.2.1, hb1r, hb1v.2.2, rfl, ?_, ?_, ?_⟩
              · show lookupBuf id (setBuf id { b1 with area := r } s1.bufs) = _
                exact lookupBuf_setBuf_self hb1
              · show s1.cache.reserve = s.cache.reserve
                exact hres1
              · show s1.cache.n_reserve = s.cache.n_reserve
                exact hnres1
              · show s1.nextId = s.nextId
                exact hnext1
    · exact absurd h (by simp)

/-- Drawing the head of the reserve and retargeting it at an image preserves
the invariant. -/
theorem wf_pop {s : CacheState} {id : Nat} {rest : List Nat} {b : VipsBuffer} (hW : WF s)
    (im : Nat) (hresv : s.cache.reserve = id :: rest) (hb : lookupBuf id s.bufs = some b) :
    WF { s with
      cache := { s.cache with reserve := rest, n_reserve := s.cache.n_reserve - 1 },
      bufs := setBuf id { b with ref_count := (1 : Int), im := some im, done := false, cache := false } s.bufs } := by
  have hheadmem : id ∈ s.cache.reserve := by
    rw [hresv]
    exact List.mem_cons_self _ _
  obtain ⟨rb, hrb, hr0, hrim, hrd, hrw, hrh⟩ := hW.resOK id hheadmem
  have hbrb : b = rb := lookup_eq_of_eq hb hrb
  subst hbrb
  have hresnd := hW.resNodup
  rw [hresv] at hresnd
  have hdnotin : id ∉ rest := (List.nodup_cons.mp hresnd).1
  have hrestnd : rest.Nodup := (List.nodup_cons.mp hresnd).2
  have hlen := hW.nres
  rw [hresv, List.length_cons] at hlen
  have hbnd := hW.resBound
  rw [hresv, List.length_cons] at hbnd
  constructor
  · show (setBuf _ _ s.bufs |>.map Prod.fst).Nodup
    rw [setBuf_keys]
    exact hW.keysNodup
  · intro p hp
    rcases mem_setBuf_nodup hW.keysNodup hp with ⟨hpid, _⟩ | ⟨hpmem, _⟩
    · rw [hpid]
      exact hW.keysLt (id, b) (lookupBuf_mem hb)
    · exact hW.keysLt p hpmem
  · show s.cache.n_reserve - 1 = rest.length
    omega
  · show rest.length ≤ buffer_cache_max_reserve
    omega
  · exact hrestnd
  · intro rid hrid
    have hrmem : rid ∈ s.cache.reserve := by
      rw [hresv]
      exact List.mem_cons_of_mem _ hrid
    obtain ⟨rb2, hrb2, hrest⟩ := hW.resOK rid hrmem
    have hne : rid ≠ id := by rintro rfl; exact hdnotin hrid
    exact ⟨rb2, by rw [lookupBuf_setBuf_ne hne]; exact hrb2, hrest⟩
  · intro p hp
    rcases mem_setBuf_nodup hW.keysNodup hp with ⟨_, hpv⟩ | ⟨hpmem, _⟩
    · rw [hpv]
      norm_num
    · exact hW.refNonneg p hpmem
  · intro p hp hz
    rcases mem_setBuf_nodup hW.keysNodup hp with ⟨_, hpv⟩ | ⟨hpmem, _⟩
    · rw [hpv] at hz
      exact absurd hz (by norm_num)
    · exact hW.zeroInv p hpmem hz
  · exact hW.hashNodup
  · exact hW.listNodup
  · intro e he id0 hid0
    obtain ⟨b0, hb0, hd0, him0⟩ := hW.listOK e he id0 hid0
    have hne : id0 ≠ id := by
      rintro rfl
      have hbb : b0 = b := lookup_eq_of_eq hb0 hb
      rw [hbb, hrd] at hd0
      exact absurd hd0 (by simp)
    exact ⟨b0, by rw [lookupBuf_setBuf_ne hne]; exact hb0, hd0, him0⟩

/-- Allocating a fresh zeroed buffer struct with one reference preserves the
invariant when the reserve is empty. -/
theorem wf_fresh {s : CacheState} (hW : WF s) (hresv : s.cache.reserve = []) (im : Nat) :
    WF { s with
      bufs := ((s.nextId, { ref_count := (1 : Int), im := some im, done := false, cache := false, buf := false, bsize := 0, area := { left := 0, top := 0, width := 0, height := 0 } }) : Nat × VipsBuffer) :: s.bufs,
      nextId := s.nextId + 1 } := by
  constructor
  · refine List.nodup_cons.mpr ⟨?_, hW.keysNodup⟩
    intro hmem
    obtain ⟨p, hpmem, hpfst⟩ := List.mem_map.mp hmem
    have := hW.keysLt p hpmem
    omega
  · intro p hp
    rcases List.mem_cons.mp hp with hp | hp
    · rw [hp]
      show s.nextId < s.nextId + 1
      omega
    · have := hW.keysLt p hp
      show p.1 < s.nextId + 1
      omega
  · exact hW.nres
  · exact hW.resBound
  · exact hW.resNodup
  · intro rid hrid
    rw [hresv] at hrid
    exact absurd hrid (List.not_mem_nil _)
  · intro p hp
    rcases List.mem_cons.mp hp with hp | hp
    · rw [hp]
      norm_num
    · exact hW.refNonneg p hp
  · intro p hp hz
    rcases List.mem_cons.mp hp with hp | hp
    · rw [hp] at hz
      exact absurd hz (by norm_num)
    · exact hW.zeroInv p hp hz
  · exact hW.hashNodup
  · exact hW.listNodup
  · intro e he id0 hid0
    obtain ⟨b0, hb0, hd0, him0⟩ := hW.listOK e he id0 hid0
    have hne : id0 ≠ s.nextId := by
      have := hW.keysLt (id0, b0) (lookupBuf_mem hb0)
      omega
    exact ⟨b0, by rw [lookupBuf_cons_ne (Ne.symm hne)]; exact hb0, hd0, him0⟩

theorem wf_new {im : Nat} {r : VipsRect} {res : Option Nat} {s s' : CacheState} (hW : WF s)
    (h : vips_buffer_new im r s = some (res, s')) : WF s' := by
  simp only [vips_buffer_new] at h
  split at h
  · rename_i id rest hresv
    split at h
    · exact absurd h (by simp)
    · rename_i b hb
      have hW1 := wf_pop hW im hresv hb
      split at h
      · exact absurd h (by simp)
      · rename_i s2 hmv
        injection h with h
        injection h with h1 h2
        subst h2
        exact wf_move hW1 hmv
      · rename_i s2 hmv
        injection h with h
        injection h with h1 h2
        subst h2
        have hW2 : WF s2 := wf_move hW1 hmv
        obtain ⟨bm, bb, _, _, hbb, hbbd, hbbr, _, _, _, _, _⟩ := move_target hmv
        refine wf_erase hW2 hbb ?_ (Or.inl ⟨hbbd, rfl⟩) rfl rfl rfl rfl
        exact not_mem_reserve_of_ref_ne_zero hW2 hbb (by rw [hbbr]; norm_num)
  · rename_i hresv
    have hW1 := wf_fresh hW hresv im
    split at h
    · exact absurd h (by simp)
    · rename_i s2 hmv
      injection h with h
      injection h with h1 h2
      subst h2
      exact wf_move hW1 hmv
    · rename_i s2 hmv
      injection h with h
      injection h with h1 h2
      subst h2
      have hW2 : WF s2 := wf_move hW1 hmv
      obtain ⟨bm, bb, _, _, hbb, hbbd, hbbr, _, _, _, _, _⟩ := move_target hmv
      refine wf_erase hW2 hbb ?_ (Or.inl ⟨hbbd, rfl⟩) rfl rfl rfl rfl
      exact not_mem_reserve_of_ref_ne_zero hW2 hbb (by rw [hbbr]; norm_num)

theorem find_loop_spec {r : VipsRect} {s : CacheState} :
    ∀ {l : List Nat} {res : Option Nat} {s1 : CacheState},
      buffer_find_loop r s l = some (res, s1) →
      (res = none ∧ s1 = s) ∨
      (∃ id0 b, res = some id0 ∧ id0 ∈ l ∧ lookupBuf id0 s.bufs = some b ∧
        vips_rect_includesrect b.area r = true ∧
        s1 = { s with bufs := setBuf id0 { b with ref_count := b.ref_count + 1 } s.bufs }) := by
  intro l
  induction l with
  | nil =>
    intro res s1 h
    simp only [buffer_find_loop] at h
    injection h with h
    injection h with h1 h2
    exact Or.inl ⟨h1.symm, h2.symm⟩
  | cons id rest ih =>
    intro res s1 h
    simp only [buffer_find_loop] at h
    split at h
    · exact absurd h (by simp)
    · rename_i b hb
      split at h
      · rename_i hinc
        injection h with h
        injection h with h1 h2
        exact Or.inr ⟨id, b, h1.symm, List.mem_cons_self _ _, hb, hinc, h2.symm⟩
      · rcases ih h with ⟨h1, h2⟩ | ⟨id0, b0, h1, h2, h3, h4, h5⟩
        · exact Or.inl ⟨h1, h2⟩
        · exact Or.inr ⟨id0, b0, h1, List.mem_cons_of_mem _ h2, h3, h4, h5⟩

/-- The scan of `buffer_find` is exactly a first-fit search: on a list of
live entries it returns `List.find?` of the enclosure test, bumping the hit's
reference count. -/
theorem find_loop_eq {r : VipsRect} {s : CacheState} :
    ∀ {l : List Nat}, (∀ id ∈ l, lookupBuf id s.bufs ≠ none) →
      buffer_find_loop r s l = some (l.find? (findTest s r),
        match l.find? (findTest s r) with
        | some id => bumpRef id s
        | none => s) := by
  intro l
  induction l with
  | nil => intro _; simp [buffer_find_loop]
  | cons id rest ih =>
    intro hlive
    have hid := hlive id (List.mem_cons_self _ _)
    cases hb : lookupBuf id s.bufs with
    | none => exact absurd hb hid
    | some b =>
      simp only [buffer_find_loop, hb]
      have htest : findTest s r id = vips_rect_includesrect b.area r := by
        unfold findTest
        rw [hb]
      cases hinc : vips_rect_includesrect b.area r with
      | true =>
        have hfind : (id :: rest).find? (findTest s r) = some id :=
          List.find?_cons_of_pos _ (by rw [htest, hinc])
        rw [hfind]
        simp [bumpRef, hb]
      | false =>
        have hfind : (id :: rest).find? (findTest s r) = rest.find? (findTest s r) :=
          List.find?_cons_of_neg _ (by rw [htest, hinc]; simp)
        rw [hfind]
        simpa using ih (fun i hi => hlive i (List.mem_cons_of_mem _ hi))

theorem wf_find {im : Nat} {r : VipsRect} {res : Option Nat} {s s' : CacheState} (hW : WF s)
    (h : buffer_find im r s = some (res, s')) : WF s' := by
  unfold buffer_find at h
  split at h
  · injection h with h
    injection h with h1 h2
    rw [← h2]
    exact hW
  · rename_i l hl
    rcases find_loop_spec h with ⟨_, hs⟩ | ⟨id0, b0, _, hidmem, hb0, hinc, hs⟩
    · subst hs; exact hW
    · subst hs
      have hentry : (some im, l) ∈ s.cache.hash := hashLookup_mem hl
      obtain ⟨b1, hb1, hd1, him1⟩ := hW.listOK _ hentry id0 hidmem
      have hbb : b1 = b0 := lookup_eq_of_eq hb1 hb0
      subst hbb
      have hrnn : 0 ≤ b1.ref_count := hW.refNonneg (id0, b1) (lookupBuf_mem hb0)
      have hrnz : b1.ref_count ≠ 0 := by
        intro hz
        have hzi := hW.zeroInv (id0, b1) (lookupBuf_mem hb0) hz
        rw [hzi.1] at hd1
        exact absurd hd1 (by simp)
      refine wf_setBuf_samepub hW hb0 rfl rfl rfl
        (not_mem_reserve_of_ref_ne_zero hW hb0 hrnz) ?_ ?_ rfl rfl
      · show (0 : Int) ≤ b1.ref_count + 1
        omega
      · intro hz
        have : b1.ref_count = -1 := by
          have hq : b1.ref_count + 1 = 0 := hz
          omega
        omega

theorem wf_ref {im : Nat} {r : VipsRect} {res : Option Nat} {s s' : CacheState} (hW : WF s)
    (h : vips_buffer_ref im r s = some (res, s')) : WF s' := by
  unfold vips_buffer_ref at h
  split at h
  · exact absurd h (by simp)
  · rename_i id s1 hfind
    injection h with h
    injection h with h1 h2
    subst h2
    exact wf_find hW hfind
  · rename_i s1 hfind
    exact wf_new (wf_find hW hfind) h

theorem wf_unref_ref {old : Option Nat} {im : Nat} {r : VipsRect} {res : Option Nat}
    {s s' : CacheState} (hW : WF s)
    (h : vips_buffer_unref_ref old im r s = some (res, s')) : WF s' := by
  unfold vips_buffer_unref_ref at h
  split at h
  · rename_i oid
    split at h
    · exact absurd h (by simp)
    · rename_i ob hob
      split at h
      · exact absurd h (by simp)
      · split at h
        · injection h with h
          injection h with h1 h2
          rw [← h2]
          exact hW
        · split at h
          · exact absurd h (by simp)
          · rename_i id s1 hfind
            split at h
            · exact absurd h (by simp)
            · rename_i s2 hunref
              injection h with h
              injection h with h1 h2
              subst h2
              exact wf_unref (wf_find hW hfind) hunref
          · rename_i s1 hfind
            have hW1 : WF s1 := wf_find hW hfind
            split at h
            · exact absurd h (by simp)
            · rename_i ob1 hob1
              split at h
              · split at h
                · exact absurd h (by simp)
                · rename_i s2 hmv
                  injection h with h
                  injection h with h1 h2
                  subst h2
                  exact wf_move hW1 hmv
                · rename_i s2 hmv
                  split at h
                  · exact absurd h (by simp)
                  · rename_i s3 hunref
                    injection h with h
                    injection h with h1 h2
                    subst h2
                    exact wf_unref (wf_move hW1 hmv) hunref
              · split at h
                · exact absurd h (by simp)
                · rename_i s2 hunref
                  exact wf_new (wf_unref hW1 hunref) h
  · split at h
    · exact absurd h (by simp)
    · rename_i id s1 hfind
      injection h with h
      injection h with h1 h2
      subst h2
      exact wf_find hW hfind
    · rename_i s1 hfind
      exact wf_new (wf_find hW hfind) h

theorem liveRef_spec {id : Nat} {s : CacheState} (h : liveRef id s = true) :
    ∀ b, lookupBuf id s.bufs = some b → 0 < b.ref_count := by
  intro b hb
  unfold liveRef at h
  rw [hb] at h
  exact of_decide_eq_true h

theorem wf_step {op : BufOp} {s s' : CacheState} (hW : WF s)
    (h : step op s = some s') : WF s' := by
  cases op with
  | acquire im r =>
    simp only [step] at h
    obtain ⟨p, hp, hps⟩ := Option.map_eq_some'.mp h
    obtain ⟨res, s1⟩ := p
    rw [← hps]
    exact wf_ref hW hp
  | release id => exact wf_unref hW h
  | swap old im r =>
    cases old with
    | some oid =>
      simp only [step] at h
      split at h
      · obtain ⟨p, hp, hps⟩ := Option.map_eq_some'.mp h
        obtain ⟨res, s1⟩ := p
        rw [← hps]
        exact wf_unref_ref hW hp
      · exact absurd h (by simp)
    | none =>
      simp only [step] at h
      obtain ⟨p, hp, hps⟩ := Option.map_eq_some'.mp h
      obtain ⟨res, s1⟩ := p
      rw [← hps]
      exact wf_unref_ref hW hp
  | publish id =>
    simp only [step] at h
    split at h
    · rename_i hlive
      exact wf_done hW (liveRef_spec hlive) h
    · exact absurd h (by simp)
  | unpublish id =>
    simp only [step] at h
    split at h
    · exact wf_undone hW h
    · exact absurd h (by simp)

theorem wf_initState (pel : Nat → Nat) (al : List Bool) : WF (initState pel al) := by
  constructor <;> simp [initState, buffer_cache_max_reserve]

theorem wf_runOps {ops : List BufOp} {s s' : CacheState} (hW : WF s)
    (h : runOps ops s = some s') : WF s' := by
  induction ops generalizing s with
  | nil =>
    simp only [runOps] at h
    injection h with h
    rw [← h]
    exact hW
  | cons op rest ih =>
    simp only [runOps] at h
    split at h
    · exact absurd h (by simp)
    · rename_i s1 hstep
      exact ih (wf_step hW hstep) h

theorem includesrect_self (r : VipsRect) : vips_rect_includesrect r r = true := by
  simp [vips_rect_includesrect]

/-- Dropping the last reference removes the buffer from every published list
and then either parks it detached in the reserve (when there is room) or
frees it permanently (when the reserve is full). -/
theorem unref_last_spec {id : Nat} {b : VipsBuffer} {s s' : CacheState} (hW : WF s)
    (hb : lookupBuf id s.bufs = some b) (href : b.ref_count = 1)
    (h : vips_buffer_unref id s = some s') :
    (∀ e ∈ s'.cache.hash, id ∉ e.2) ∧
    (if s.cache.n_reserve < buffer_cache_max_reserve
     then id ∈ s'.cache.reserve ∧ ∃ b2, lookupBuf id s'.bufs = some b2 ∧
          b2.ref_count = 0 ∧ b2.im = none ∧ b2.done = false ∧
          b2.area.width = 0 ∧ b2.area.height = 0
     else lookupBuf id s'.bufs = none ∧ id ∉ s'.cache.reserve) := by
  simp only [vips_buffer_unref] at h
  split at h
  · exact absurd h (by simp)
  · rename_i b0 hb0
    have hbb : b0 = b := lookup_eq_of_eq hb0 hb
    subst hbb
    split at h
    · exact absurd h (by simp)
    · rename_i hle
      split at h
      · rename_i heq
        split at h
        · exact absurd h (by simp)
        · rename_i s2 hundone
          obtain ⟨b1, hb1, hnext2, _, _, hres2, hnres2, hcase⟩ := undone_spec hundone
          have hb1set : lookupBuf id
              (setBuf id { b0 with ref_count := b0.ref_count - 1 } s.bufs)
              = some { b0 with ref_count := b0.ref_count - 1 } := lookupBuf_setBuf_self hb0
          have hbb1 : b1 = { b0 with ref_count := b0.ref_count - 1 } :=
            lookup_eq_of_eq hb1 hb1set
          subst hbb1
          have hcase2 : (b0.done = false ∧ s2.cache.hash = s.cache.hash) ∨
              (b0.done = true ∧ ∃ l, hashLookup b0.im s.cache.hash = some l ∧ id ∈ l ∧
                s2.cache.hash = setHash b0.im (l.erase id) s.cache.hash) := by
            rcases hcase with ⟨hd, hh, _⟩ | ⟨hd, l, hl, hm, hh, _⟩
            · exact Or.inl ⟨hd, hh⟩
            · exact Or.inr ⟨hd, l, hl, hm, hh⟩
          obtain ⟨_, _, hulists⟩ := unpub_lists_ok hW hb0 hcase2
          have hnotres : id ∉ s.cache.reserve :=
            not_mem_reserve_of_ref_ne_zero hW hb0 (by rw [href]; norm_num)
          split at h
          · rename_i hroom
            have hroom2 : s.cache.n_reserve < buffer_cache_max_reserve := by
              rw [hnres2] at hroom
              exact hroom
            split at h
            · exact absurd h (by simp)
            · rename_i b2 hb2
              injection h with h
              subst h
              rw [if_pos hroom2]
              refine ⟨?_, List.mem_cons_self _ _,
                { b2 with done := false, cache := false, im := none,
                          area := { b2.area with width := 0, height := 0 } },
                ?_, ?_, rfl, rfl, rfl, rfl⟩
              · intro e he hidmem
                exact absurd rfl (hulists e he id hidmem).1
              · exact lookupBuf_setBuf_self hb2
              · show b2.ref_count = 0
                have hb2v : b2.ref_count = b0.ref_count - 1 := by
                  rcases hcase with ⟨_, _, hbufs2⟩ | ⟨_, _, _, _, _, hbufs2⟩ <;>
                  · have hq := lookup_eq_of_eq hb2
                      (by rw [hbufs2, setBuf_setBuf]; exact lookupBuf_setBuf_self hb0)
                    rw [hq]
                rw [hb2v]
                exact heq
          · rename_i hfull
            have hfull2 : ¬ s.cache.n_reserve < buffer_cache_max_reserve := by
              rw [hnres2] at hfull
              exact hfull
            injection h with h
            subst h
            rw [if_neg hfull2]
            refine ⟨?_, ?_, ?_⟩
            · intro e he hidmem
              exact absurd rfl (hulists e he id hidmem).1
            · show lookupBuf id (eraseBuf id s2.bufs) = none
              refine lookupBuf_eraseBuf_self ?_
              rcases hcase with ⟨_, _, hbufs2⟩ | ⟨_, _, _, _, _, hbufs2⟩ <;>
              · rw [hbufs2, setBuf_keys, setBuf_keys]
                exact hW.keysNodup
            · show id ∉ s2.cache.reserve
              rw [hres2]
              exact hnotres
      · rename_i hne
        rw [href] at hne
        exact absurd (show (1 : Int) - 1 = 0 by norm_num) hne

/-- A successful `vips_buffer_new` returns a buffer whose area is exactly the
requested rectangle. -/
theorem new_target {im : Nat} {r : VipsRect} {id : Nat} {s s' : CacheState}
    (h : vips_buffer_new im r s = some (some id, s')) :
    ∃ bb, lookupBuf id s'.bufs = some bb ∧ bb.area = r := by
  simp only [vips_buffer_new] at h
  split at h
  · rename_i id0 rest hresv
    split at h
    · exact absurd h (by simp)
    · rename_i b hb
      split at h
      · exact absurd h (by simp)
      · rename_i s2 hmv
        injection h with h
        injection h with h1 h2
        injection h1 with h1
        subst h1
        subst h2
        obtain ⟨bm, bb, _, _, hbb, _, _, _, harea, _, _, _⟩ := move_target hmv
        exact ⟨bb, hbb, harea⟩
      · exact absurd h (by simp)
  · rename_i hresv
    split at h
    · exact absurd h (by simp)
    · rename_i s2 hmv
      injection h with h
      injection h with h1 h2
      injection h1 with h1
      subst h1
      subst h2
      obtain ⟨bm, bb, _, _, hbb, _, _, _, harea, _, _, _⟩ := move_target hmv
      exact ⟨bb, hbb, harea⟩
    · exact absurd h (by simp)

/-! The claims. -/

/-- C2: for every image and every rectangle, a successful acquire
(`vips_buffer_ref`) returns a buffer whose area encloses the requested
rectangle — whether the buffer was found already published, drawn from the
reserve pool, or freshly constructed. -/
theorem acquire_result_encloses {im : Nat} {r : VipsRect} {id : Nat} {s s' : CacheState}
    (h : vips_buffer_ref im r s = some (some id, s')) :
    ∃ b, lookupBuf id s'.bufs = some b ∧ vips_rect_includesrect b.area r = true := by
  unfold vips_buffer_ref at h
  split at h
  · exact absurd h (by simp)
  · rename_i id0 s1 hfind
    injection h with h
    injection h with h1 h2
    injection h1 with h1
    subst h1
    subst h2
    unfold buffer_find at hfind
    split at hfind
    · injection hfind with hf
      injection hf with hf1 hf2
      exact absurd hf1 (by simp)
    · rcases find_loop_spec hfind with ⟨hnone, _⟩ | ⟨id1, b, hres, hmem, hb, hinc, hs⟩
      · exact absurd hnone (by simp)
      · injection hres with hres
        subst hres
        subst hs
        exact ⟨{ b with ref_count := b.ref_count + 1 }, lookupBuf_setBuf_self hb, hinc⟩
  · rename_i s1 hfind
    obtain ⟨bb, hbb, harea⟩ := new_target h
    exact ⟨bb, hbb, by rw [harea]; exact includesrect_self r⟩

/-- Witness for C2 at a concrete input: acquiring `rectA` on a fresh cache
yields buffer 0, and its area encloses `rectA`. -/
theorem acquire_result_encloses_witness :
    vips_buffer_ref 0 rectA initS
      = some (some 0, ((vips_buffer_ref 0 rectA initS).getD (none, initS)).2) ∧
    ∃ b, lookupBuf 0 ((vips_buffer_ref 0 rectA initS).getD (none, initS)).2.bufs = some b ∧
      vips_rect_includesrect b.area rectA = true :=
  ⟨by rfl, @acquire_result_encloses 0 rectA 0 initS
    (((vips_buffer_ref 0 rectA initS).getD (none, initS)).2) (by rfl)⟩

/-- C8: when the old buffer already encloses the requested rectangle,
`vips_buffer_unref_ref` returns that very buffer and leaves the entire state
untouched — no field modified, no reference count change, no allocation;
this identity case is decided before any other branch runs. -/
theorem swap_identity_when_enclosing {oid im : Nat} {r : VipsRect} {s : CacheState}
    {b : VipsBuffer} (hb : lookupBuf oid s.bufs = some b) (him : b.im = some im)
    (hinc : vips_rect_includesrect b.area r = true) :
    vips_buffer_unref_ref (some oid) im r s = some (some oid, s) := by
  simp [vips_buffer_unref_ref, hb, him, hinc]

/-- Witness for C8 at a concrete input: swapping to the enclosed `rectSub`
while holding the buffer over `rectA` returns the same buffer and the same
state. -/
theorem swap_identity_when_enclosing_witness :
    lookupBuf 0 sHoldA.bufs = some bHoldA ∧ bHoldA.im = some 0 ∧
    vips_rect_includesrect bHoldA.area rectSub = true ∧
    vips_buffer_unref_ref (some 0) 0 rectSub sHoldA = some (some 0, sHoldA) :=
  ⟨by rfl, by rfl, by rfl, swap_identity_when_enclosing (by rfl) (by rfl) (by rfl)⟩

/-- C10: `vips_buffer_unref_ref` asserts that a supplied old buffer targets
the image of the request (`old_buffer->im == im`); handing it a buffer of a
different image is a fatal contract violation, so behaviour — including the
zero-work identity return — is defined only under this precondition. -/
theorem swap_requires_same_image {oid im : Nat} {r : VipsRect} {s : CacheState}
    {b : VipsBuffer} (hb : lookupBuf oid s.bufs = some b) (him : b.im ≠ some im) :
    vips_buffer_unref_ref (some oid) im r s = none := by
  simp [vips_buffer_unref_ref, hb, him]

/-- Witness for C10 at a concrete input: the held buffer targets image 0, so
swapping it against image 1 aborts. -/
theorem swap_requires_same_image_witness :
    lookupBuf 0 sHoldA.bufs = some bHoldA ∧ bHoldA.im ≠ some 1 ∧
    vips_buffer_unref_ref (some 0) 1 rectSub sHoldA = none :=
  ⟨by rfl, by decide, swap_requires_same_image (by rfl) (by decide)⟩

/-- C9: publish (`vips_buffer_done`) and unpublish (`vips_buffer_undone`) are
idempotent — running either twice in a row is the same as running it once: a
second publish does not re-insert the buffer into its list, and a second
unpublish does not attempt a second removal. -/
theorem publish_unpublish_idempotent (id : Nat) (s : CacheState) :
    (vips_buffer_done id s).bind (vips_buffer_done id) = vips_buffer_done id s ∧
    (vips_buffer_undone id s).bind (vips_buffer_undone id) = vips_buffer_undone id s := by
  constructor
  · cases hd : vips_buffer_done id s with
    | none => simp
    | some s1 =>
      rw [Option.some_bind]
      obtain ⟨b, hb, _, _, _, _, _, hcase⟩ := done_spec hd
      rcases hcase with ⟨hdone, hss⟩ | ⟨hdone, hbufs, _⟩
      · rw [← hss] at hd
        rw [hss] at hd ⊢
        exact hd
      · have hb1 : lookupBuf id s1.bufs = some { b with done := true, cache := true } := by
          rw [hbufs]
          exact lookupBuf_setBuf_self hb
        unfold vips_buffer_done
        rw [hb1]
        simp
  · cases hd : vips_buffer_undone id s with
    | none => simp
    | some s1 =>
      rw [Option.some_bind]
      obtain ⟨b, hb, _, _, _, _, _, hcase⟩ := undone_spec hd
      rcases hcase with ⟨hdone, _, hbufs⟩ | ⟨hdone, l, hl, hm, _, hbufs⟩
      · have hb1 : lookupBuf id s1.bufs
            = some { b with area := { b.area with width := 0, height := 0 } } := by
          rw [hbufs]
          exact lookupBuf_setBuf_self hb
        have hfin : ({ s1 with bufs := setBuf id { b with area := { b.area with width := 0, height := 0 } } s1.bufs } : CacheState) = s1 := by
          rw [setBuf_lookup_self hb1]
        simp only [vips_buffer_undone, hb1]
        rw [if_neg (by simp [hdone])]
        exact congrArg some hfin
      · have hb1 : lookupBuf id s1.bufs
            = some { b with done := false, cache := false, area := { b.area with width := 0, height := 0 } } := by
          rw [hbufs]
          exact lookupBuf_setBuf_self hb
        have hfin : ({ s1 with bufs := setBuf id { b with done := false, cache := false, area := { b.area with width := 0, height := 0 } } s1.bufs } : CacheState) = s1 := by
          rw [setBuf_lookup_self hb1]
        simp only [vips_buffer_undone, hb1]
        rw [if_neg (by simp)]
        exact congrArg some hfin

theorem find_none_state {im : Nat} {r : VipsRect} {s s1 : CacheState}
    (h : buffer_find im r s = some (none, s1)) : s1 = s := by
  unfold buffer_find at h
  split at h
  · injection h with h
    injection h with h1 h2
    exact h2.symm
  · rcases find_loop_spec h with ⟨_, hs⟩ | ⟨id0, b, hres, _⟩
    · exact hs
    · exact absurd hres (by simp)

/-- A failing `vips_buffer_new` frees the buffer it was building: afterwards
that buffer is not in the arena, not in the reserve, and in no published
list. -/
theorem new_fail_spec {im : Nat} {r : VipsRect} {s s' : CacheState} (hW : WF s)
    (h : vips_buffer_new im r s = some (none, s')) :
    lookupBuf (allocTarget s) s'.bufs = none ∧
    allocTarget s ∉ s'.cache.reserve ∧ notInAnyList (allocTarget s) s' := by
  simp only [vips_buffer_new] at h
  split at h
  · rename_i id rest hresv
    have htar : allocTarget s = id := by simp [allocTarget, hresv]
    split at h
    · exact absurd h (by simp)
    · rename_i b hb
      have hW1 := wf_pop hW im hresv hb
      split at h
      · exact absurd h (by simp)
      · rename_i s2 hmv
        injection h with h
        injection h with h1 h2
        exact absurd h1 (by simp)
      · rename_i s2 hmv
        injection h with h
        injection h with h1 h2
        subst h2
        have hW2 : WF s2 := wf_move hW1 hmv
        obtain ⟨bm, bb, _, _, hbb, hbbd, hbbr, _, _, hres2, _, _⟩ := move_target hmv
        rw [htar]
        refine ⟨?_, ?_, ?_⟩
        · show lookupBuf id (eraseBuf id s2.bufs) = none
          exact lookupBuf_eraseBuf_self hW2.keysNodup
        · show id ∉ s2.cache.reserve
          rw [hres2]
          show id ∉ rest
          have hresnd := hW.resNodup
          rw [hresv] at hresnd
          exact (List.nodup_cons.mp hresnd).1
        · intro e he hidmem
          obtain ⟨b0, hb0, hd0, _⟩ := hW2.listOK e he id hidmem
          have hqq : b0 = bb := lookup_eq_of_eq hb0 hbb
          rw [hqq, hbbd] at hd0
          exact absurd hd0 (by simp)
  · rename_i hresv
    have htar : allocTarget s = s.nextId := by simp [allocTarget, hresv]
    have hW1 := wf_fresh hW hresv im
    split at h
    · exact absurd h (by simp)
    · rename_i s2 hmv
      injection h with h
      injection h with h1 h2
      exact absurd h1 (by simp)
    · rename_i s2 hmv
      injection h with h
      injection h with h1 h2
      subst h2
      have hW2 : WF s2 := wf_move hW1 hmv
      obtain ⟨bm, bb, _, _, hbb, hbbd, hbbr, _, _, hres2, _, _⟩ := move_target hmv
      rw [htar]
      refine ⟨?_, ?_, ?_⟩
      · show lookupBuf s.nextId (eraseBuf s.nextId s2.bufs) = none
        exact lookupBuf_eraseBuf_self hW2.keysNodup
      · show s.nextId ∉ s2.cache.reserve
        rw [hres2]
        show s.nextId ∉ s.cache.reserve
        rw [hresv]
        exact List.not_mem_nil _
      · intro e he hidmem
        obtain ⟨b0, hb0, hd0, _⟩ := hW2.listOK e he s.nextId hidmem
        have hqq : b0 = bb := lookup_eq_of_eq hb0 hbb
        rw [hqq, hbbd] at hd0
        exact absurd hd0 (by simp)

/-- C5: lookup is first-fit.  The `buffer_find` scan walks the image's
published list in list order and takes the first buffer whose area encloses
the rectangle — `List.find?` of the enclosure test — even when a later entry
also encloses it; and `vips_buffer_done` prepends, so list order is
most-recently-published first. -/
theorem find_first_fit :
    (∀ (im : Nat) (r : VipsRect) (s : CacheState) (l : List Nat),
       hashLookup (some im) s.cache.hash = some l →
       (∀ id ∈ l, lookupBuf id s.bufs ≠ none) →
       buffer_find im r s = some (l.find? (findTest s r),
         match l.find? (findTest s r) with
         | some id => bumpRef id s
         | none => s)) ∧
    (∀ (id : Nat) (b : VipsBuffer) (s s' : CacheState),
       lookupBuf id s.bufs = some b → b.done = false →
       vips_buffer_done id s = some s' →
       hashLookup b.im s'.cache.hash
         = some (id :: (hashLookup b.im s.cache.hash).getD [])) := by
  constructor
  · intro im r s l hl hlive
    simp only [buffer_find, hl]
    exact find_loop_eq hlive
  · intro id b s s' hb hdone h
    obtain ⟨b0, hb0, _, _, _, _, _, hcase⟩ := done_spec h
    have hbb : b0 = b := lookup_eq_of_eq hb0 hb
    subst hbb
    rcases hcase with ⟨hd, _⟩ | ⟨_, _, hhash⟩
    · rw [hdone] at hd
      exact absurd hd (by simp)
    · rcases hhash with ⟨hl, hh⟩ | ⟨l, hl, hm, hh⟩
      · rw [hh, hl]
        simp [hashLookup]
      · rw [hh, hashLookup_setHash_self hl, hl]
        simp

/-- Witness for C5 at concrete inputs: in `sPub2` the list for image 0 is
`[1, 0]` (most recent first) and the scan returns its first-fit result; and
publishing the fresh buffer 1 in `sPub1New` prepends it to the list. -/
theorem find_first_fit_witness :
    hashLookup (some 0) sPub2.cache.hash = some [1, 0] ∧
    buffer_find 0 rectSub sPub2 = some ([1, 0].find? (findTest sPub2 rectSub),
      match [1, 0].find? (findTest sPub2 rectSub) with
      | some id => bumpRef id sPub2
      | none => sPub2) ∧
    lookupBuf 1 sPub1New.bufs = some bNewB ∧ bNewB.done = false ∧
    hashLookup bNewB.im ((vips_buffer_done 1 sPub1New).getD initS).cache.hash
      = some (1 :: (hashLookup bNewB.im sPub1New.cache.hash).getD []) :=
  ⟨by rfl,
   find_first_fit.1 0 rectSub sPub2 [1, 0] (by rfl) (by decide),
   by rfl, by rfl,
   find_first_fit.2 1 bNewB sPub1New ((vips_buffer_done 1 sPub1New).getD initS)
     (by rfl) (by rfl) (by rfl)⟩

/-- C4 counterexample: buffer 0 is published for image 0, `rectSub` is
enclosed by its area and it is never unpublished, yet acquiring `rectSub`
returns buffer 1 — the more recently published enclosing buffer — not
buffer 0, refuting the claim that the same buffer `b` is always returned. -/
theorem acquire_ignores_older_published :
    lookupBuf 0 sPub2.bufs = some bPubA ∧ bPubA.done = true ∧
    vips_rect_includesrect bPubA.area rectSub = true ∧
    Option.map Prod.fst (vips_buffer_ref 0 rectSub sPub2) = some (some 1) ∧
    (some (some 1) : Option (Option Nat)) ≠ some (some 0) :=
  ⟨by rfl, by rfl, by rfl, by rfl, by decide⟩

/-- C4 (amended): if a buffer is published for image `I` and `acquire(I, r)`
is called with `r` enclosed by its area and no intervening unpublish, acquire
returns the first buffer in the image's list (most-recently-published bias)
whose area encloses `r` — the given buffer exactly when it is that first
match — with its reference count incremented and no new allocation: the
arena's identities, the cache, the fresh counter and the allocation oracle
are all unchanged. -/
theorem acquire_hit_returns_first_enclosing {im : Nat} {r : VipsRect} {s : CacheState}
    {l : List Nat} {id : Nat} {b : VipsBuffer}
    (hl : hashLookup (some im) s.cache.hash = some l)
    (hlive : ∀ i ∈ l, lookupBuf i s.bufs ≠ none)
    (hfirst : l.find? (findTest s r) = some id)
    (hb : lookupBuf id s.bufs = some b) :
    vips_buffer_ref im r s = some (some id, bumpRef id s) ∧
    lookupBuf id (bumpRef id s).bufs = some { b with ref_count := b.ref_count + 1 } ∧
    (bumpRef id s).bufs.map Prod.fst = s.bufs.map Prod.fst ∧
    (bumpRef id s).cache = s.cache ∧ (bumpRef id s).nextId = s.nextId ∧
    (bumpRef id s).allocOk = s.allocOk := by
  have hfind : buffer_find im r s = some (some id, bumpRef id s) := by
    simp only [buffer_find, hl]
    rw [find_loop_eq hlive, hfirst]
  refine ⟨?_, ?_, ?_, ?_, ?_, ?_⟩
  · unfold vips_buffer_ref
    rw [hfind]
  · simp only [bumpRef, hb]
    exact lookupBuf_setBuf_self hb
  · simp only [bumpRef, hb]
    exact setBuf_keys
  · simp only [bumpRef, hb]
  · simp only [bumpRef, hb]
  · simp only [bumpRef, hb]

/-- Witness for the amended C4 at a concrete input: in `sPub2`, buffer 1 is
the first enclosing match for `rectSub` and acquire returns it bumped, with
no new allocation. -/
theorem acquire_hit_returns_first_enclosing_witness :
    hashLookup (some 0) sPub2.cache.hash = some [1, 0] ∧
    [1, 0].find? (findTest sPub2 rectSub) = some 1 ∧
    lookupBuf 1 sPub2.bufs = some bPubB ∧
    vips_buffer_ref 0 rectSub sPub2 = some (some 1, bumpRef 1 sPub2) ∧
    lookupBuf 1 (bumpRef 1 sPub2).bufs
      = some { bPubB with ref_count := bPubB.ref_count + 1 } ∧
    (bumpRef 1 sPub2).bufs.map Prod.fst = sPub2.bufs.map Prod.fst ∧
    (bumpRef 1 sPub2).cache = sPub2.cache ∧
    (bumpRef 1 sPub2).allocOk = sPub2.allocOk := by
  have hmain := @acquire_hit_returns_first_enclosing 0 rectSub sPub2 [1, 0] 1 bPubB
    (by rfl) (by decide) (by rfl) (by rfl)
  exact ⟨by rfl, by rfl, by rfl, hmain.1, hmain.2.1, hmain.2.2.1, hmain.2.2.2.1,
    hmain.2.2.2.2.2⟩

/-- C6 counterexample: after acquiring a buffer over `rectC` (left 3, top 4)
and releasing it, the parked buffer has reference count 0, but its area is
not zeroed — `left` is still 3: `vips_buffer_undone` zeroes only the width
and the height. -/
theorem refzero_area_left_not_zeroed :
    runOps [BufOp.acquire 0 rectC, BufOp.release 0] initS = some sParked ∧
    lookupBuf 0 sParked.bufs = some bParkedC ∧
    bParkedC.ref_count = 0 ∧ bParkedC.area.left = 3 ∧ ((3 : Int) ≠ 0) :=
  ⟨by rfl, by rfl, by rfl, by rfl, by decide⟩

/-- C6 (amended): for every buffer, whenever its reference count is 0 the
buffer is not published — it sits in no image's BufferCacheList — and its
area's width and height are zeroed (`left`/`top` may keep stale values);
this invariant is re-established by `vips_buffer_unref` on the transition to
zero and holds in every state reachable through the public API. -/
theorem refzero_unpublished_empty_area
    (pel : Nat → Nat) (al : List Bool) (ops : List BufOp) (s : CacheState)
    (hrun : runOps ops (initState pel al) = some s) :
    ∀ p ∈ s.bufs, p.2.ref_count = 0 →
      p.2.done = false ∧ p.2.area.width = 0 ∧ p.2.area.height = 0 ∧
      notInAnyList p.1 s := by
  have hW : WF s := wf_runOps (wf_initState pel al) hrun
  intro p hp hz
  obtain ⟨hd, hw, hh⟩ := hW.zeroInv p hp hz
  refine ⟨hd, hw, hh, ?_⟩
  intro e he hmem
  obtain ⟨b0, hb0, hd0, _⟩ := hW.listOK e he p.1 hmem
  have hlp : lookupBuf p.1 s.bufs = some p.2 := mem_lookupBuf hW.keysNodup hp
  have hqq : b0 = p.2 := lookup_eq_of_eq hb0 hlp
  rw [hqq, hd] at hd0
  exact absurd hd0 (by simp)

/-- Witness for the amended C6 at a concrete input: the parked buffer of
`sParked` has zero references, is unpublished, has empty area, and is in no
list. -/
theorem refzero_unpublished_empty_area_witness :
    runOps [BufOp.acquire 0 rectC, BufOp.release 0] initS = some sParked ∧
    (0, bParkedC) ∈ sParked.bufs ∧ bParkedC.ref_count = 0 ∧
    (bParkedC.done = false ∧ bParkedC.area.width = 0 ∧ bParkedC.area.height = 0 ∧
      notInAnyList (0, bParkedC).1 sParked) :=
  ⟨by rfl, by decide, by rfl,
   refzero_unpublished_empty_area pel1 [] [BufOp.acquire 0 rectC, BufOp.release 0]
     sParked (by rfl) (0, bParkedC) (by decide) (by rfl)⟩

/-- C7: for any sequence of API calls on one thread, no buffer's reference
count ever becomes negative; and `vips_buffer_unref` on a buffer whose
reference count is already 0 is rejected as a fatal contract violation
(`g_assert( buffer->ref_count > 0 )`) rather than decrementing below zero. -/
theorem refcount_never_negative :
    (∀ (pel : Nat → Nat) (al : List Bool) (ops : List BufOp) (s : CacheState),
       runOps ops (initState pel al) = some s → refsNonneg s) ∧
    (∀ (id : Nat) (s : CacheState) (b : VipsBuffer),
       lookupBuf id s.bufs = some b → b.ref_count = 0 →
       vips_buffer_unref id s = none) := by
  constructor
  · intro pel al ops s hrun
    exact (wf_runOps (wf_initState pel al) hrun).refNonneg
  · intro id s b hb hz
    simp only [vips_buffer_unref, hb]
    rw [if_pos (by rw [hz])]

/-- Witness for C7 at concrete inputs: in `sParked` every reference count is
non-negative, and releasing the already-released buffer 0 is fatal. -/
theorem refcount_never_negative_witness :
    runOps [BufOp.acquire 0 rectC, BufOp.release 0] initS = some sParked ∧
    refsNonneg sParked ∧
    lookupBuf 0 sParked.bufs = some bParkedC ∧ bParkedC.ref_count = 0 ∧
    vips_buffer_unref 0 sParked = none :=
  ⟨by rfl,
   refcount_never_negative.1 pel1 [] [BufOp.acquire 0 rectC, BufOp.release 0] sParked
     (by rfl),
   by rfl, by rfl,
   refcount_never_negative.2 0 sParked bParkedC (by rfl) (by rfl)⟩

/-- C3: after any sequence of API calls on one thread's cache, the reserve
pool holds at most 40 buffers and every reserve member is detached — no
owning image, not published, reference count 0; and a buffer dropped to zero
references while the reserve is full is permanently freed instead of
parked. -/
theorem reserve_bounded_detached_freed_when_full :
    (∀ (pel : Nat → Nat) (al : List Bool) (ops : List BufOp) (s : CacheState),
       runOps ops (initState pel al) = some s →
       s.cache.reserve.length ≤ 40 ∧ reserveDetached s) ∧
    (∀ (pel : Nat → Nat) (al : List Bool) (ops : List BufOp) (s : CacheState)
       (id : Nat) (b : VipsBuffer) (s2 : CacheState),
       runOps ops (initState pel al) = some s →
       lookupBuf id s.bufs = some b → b.ref_count = 1 →
       ¬ s.cache.n_reserve < buffer_cache_max_reserve →
       vips_buffer_unref id s = some s2 →
       lookupBuf id s2.bufs = none ∧ id ∉ s2.cache.reserve) := by
  constructor
  · intro pel al ops s hrun
    have hW : WF s := wf_runOps (wf_initState pel al) hrun
    refine ⟨hW.resBound, ?_⟩
    intro id hid
    obtain ⟨b, hb, h0, him, hd, _, _⟩ := hW.resOK id hid
    exact ⟨b, hb, him, hd, h0⟩
  · intro pel al ops s id b s2 hrun hb href hfull hunref
    have hW : WF s := wf_runOps (wf_initState pel al) hrun
    have hspec := unref_last_spec hW hb href hunref
    rw [if_neg hfull] at hspec
    exact hspec.2

set_option maxRecDepth 4000 in
/-- Witness for C3 at concrete inputs: the reserve of `sParked` respects the
bound and is detached; and in `sFull`, whose reserve holds the maximum of 40
buffers, releasing the last reference of buffer 40 frees it permanently. -/
theorem reserve_bounded_detached_freed_when_full_witness :
    runOps fullOps initS = some sFull ∧
    sParked.cache.reserve.length ≤ 40 ∧ reserveDetached sParked ∧
    lookupBuf 40 sFull.bufs = some bHold1F ∧ bHold1F.ref_count = 1 ∧
    (lookupBuf 40 ((vips_buffer_unref 40 sFull).getD initS).bufs = none ∧
      40 ∉ ((vips_buffer_unref 40 sFull).getD initS).cache.reserve) :=
  ⟨by rfl,
   (reserve_bounded_detached_freed_when_full.1 pel1 []
     [BufOp.acquire 0 rectC, BufOp.release 0] sParked (by rfl)).1,
   (reserve_bounded_detached_freed_when_full.1 pel1 []
     [BufOp.acquire 0 rectC, BufOp.release 0] sParked (by rfl)).2,
   by rfl, by rfl,
   reserve_bounded_detached_freed_when_full.2 pel1 [] fullOps sFull 40 bHold1F
     ((vips_buffer_unref 40 sFull).getD initS) (by rfl) (by rfl) (by rfl)
     (by decide) (by rfl)⟩

/-- C1 counterexample: with one exclusively held buffer and the next
allocation due to fail, `vips_buffer_unref_ref` reports the failure
(returns NULL) after the in-place `buffer_move` loses its allocation — but
the buffer is not permanently released: it is parked in the reserve pool,
still in the arena, refuting the claim that it is never left in the
reserve. -/
theorem swap_oom_parks_old_buffer :
    runOps [BufOp.acquire 0 rect1] (initState pel1 [true, false]) = some sHold1F ∧
    Option.map Prod.fst (vips_buffer_unref_ref (some 0) 0 rect2 sHold1F) = some none ∧
    Option.map (fun p => p.2.cache.reserve) (vips_buffer_unref_ref (some 0) 0 rect2 sHold1F)
      = some [0] ∧
    Option.map (fun p => p.2.bufs.map Prod.fst)
      (vips_buffer_unref_ref (some 0) 0 rect2 sHold1F) = some [0] :=
  ⟨by rfl, by rfl, by rfl, by rfl⟩

/-- C1 (amended): when the backing allocation fails, the buffer being built
is released exactly once before the error returns.  In acquire
(`vips_buffer_ref`/`vips_buffer_new`) the fresh or reserve-drawn buffer is
permanently freed: gone from the arena, not in the reserve, in no published
list.  In swapReference's in-place resize (`vips_buffer_unref_ref` on an
exclusively held old buffer), the old buffer is released through
`vips_buffer_unref`: it leaves every published list and is then parked
detached (no image, unpublished, reference count 0) in the reserve when
there is room, or permanently freed when the reserve is full. -/
theorem alloc_failure_buffer_released :
    (∀ (pel : Nat → Nat) (al : List Bool) (ops : List BufOp) (s : CacheState)
       (im : Nat) (r : VipsRect) (s' : CacheState),
       runOps ops (initState pel al) = some s →
       vips_buffer_ref im r s = some (none, s') →
       lookupBuf (allocTarget s) s'.bufs = none ∧
       allocTarget s ∉ s'.cache.reserve ∧ notInAnyList (allocTarget s) s') ∧
    (∀ (pel : Nat → Nat) (al : List Bool) (ops : List BufOp) (s : CacheState)
       (oid im : Nat) (r : VipsRect) (ob : VipsBuffer) (s' : CacheState),
       runOps ops (initState pel al) = some s →
       lookupBuf oid s.bufs = some ob → ob.ref_count = 1 →
       vips_buffer_unref_ref (some oid) im r s = some (none, s') →
       notInAnyList oid s' ∧
       ((oid ∈ s'.cache.reserve ∧ ∃ b2, lookupBuf oid s'.bufs = some b2 ∧
           b2.ref_count = 0 ∧ b2.im = none ∧ b2.done = false) ∨
        (lookupBuf oid s'.bufs = none ∧ oid ∉ s'.cache.reserve))) := by
  constructor
  · intro pel al ops s im r s' hrun h
    have hW : WF s := wf_runOps (wf_initState pel al) hrun
    unfold vips_buffer_ref at h
    split at h
    · exact absurd h (by simp)
    · rename_i id0 s1 hfind
      injection h with h
      injection h with h1 h2
      exact absurd h1 (by simp)
    · rename_i s1 hfind
      have hs1 : s1 = s := find_none_state hfind
      subst hs1
      exact new_fail_spec hW h
  · intro pel al ops s oid im r ob s' hrun hob href h
    have hW : WF s := wf_runOps (wf_initState pel al) hrun
    simp only [vips_buffer_unref_ref] at h
    split at h
    · exact absurd h (by simp)
    · rename_i ob0 hob0
      have hoo : ob0 = ob := lookup_eq_of_eq hob0 hob
      subst hoo
      split at h
      · exact absurd h (by simp)
      · split at h
        · injection h with h
          injection h with h1 h2
          exact absurd h1 (by simp)
        · split at h
          · exact absurd h (by simp)
          · rename_i id s1 hfind
            split at h
            · exact absurd h (by simp)
            · rename_i s2 hunref
              injection h with h
              injection h with h1 h2
              exact absurd h1 (by simp)
          · rename_i s1 hfind
            have hs1 : s1 = s := find_none_state hfind
            subst hs1
            split at h
            · exact absurd h (by simp)
            · rename_i ob1 hob1
              have ho1 : ob1 = ob0 := lookup_eq_of_eq hob1 hob0
              subst ho1
              split at h
              · split at h
                · exact absurd h (by simp)
                · rename_i s2 hmv
                  injection h with h
                  injection h with h1 h2
                  exact absurd h1 (by simp)
                · rename_i s2 hmv
                  split at h
                  · exact absurd h (by simp)
                  · rename_i s3 hunref
                    injection h with h
                    injection h with h1 h2
                    subst h2
                    have hW2 : WF s2 := wf_move hW hmv
                    obtain ⟨bm, bb, _, _, hbb, hbbd, hbbr, _, _, _, _, _⟩ :=
                      move_target hmv
                    have hspec := unref_last_spec hW2 hbb hbbr hunref
                    refine ⟨hspec.1, ?_⟩
                    by_cases hroom : s2.cache.n_reserve < buffer_cache_max_reserve
                    · rw [if_pos hroom] at hspec
                      obtain ⟨hmem, b2, hb2, hb2r, hb2im, hb2d, _, _⟩ := hspec.2
                      exact Or.inl ⟨hmem, b2, hb2, hb2r, hb2im, hb2d⟩
                    · rw [if_neg hroom] at hspec
                      exact Or.inr hspec.2
              · rename_i href1
                have : ob1.ref_count = 1 := href
                exact absurd this href1

/-- Witness for the amended C1 at concrete inputs: a failing acquire on a
fresh cache frees its fresh buffer, and the failing swap of `sHold1F` parks
buffer 0 detached in the reserve. -/
theorem alloc_failure_buffer_released_witness :
    runOps ([] : List BufOp) (initState pel1 [false]) = some (initState pel1 [false]) ∧
    vips_buffer_ref 0 rect1 (initState pel1 [false])
      = some (none, ((vips_buffer_ref 0 rect1 (initState pel1 [false])).getD
          (none, initS)).2) ∧
    (lookupBuf (allocTarget (initState pel1 [false]))
        ((vips_buffer_ref 0 rect1 (initState pel1 [false])).getD (none, initS)).2.bufs
        = none ∧
      allocTarget (initState pel1 [false])
        ∉ ((vips_buffer_ref 0 rect1 (initState pel1 [false])).getD (none, initS)).2.cache.reserve ∧
      notInAnyList (allocTarget (initState pel1 [false]))
        ((vips_buffer_ref 0 rect1 (initState pel1 [false])).getD (none, initS)).2) ∧
    (notInAnyList 0 ((vips_buffer_unref_ref (some 0) 0 rect2 sHold1F).getD (none, initS)).2 ∧
      ((0 ∈ ((vips_buffer_unref_ref (some 0) 0 rect2 sHold1F).getD (none, initS)).2.cache.reserve ∧
         ∃ b2, lookupBuf 0 ((vips_buffer_unref_ref (some 0) 0 rect2 sHold1F).getD
             (none, initS)).2.bufs = some b2 ∧
           b2.ref_count = 0 ∧ b2.im = none ∧ b2.done = false) ∨
       (lookupBuf 0 ((vips_buffer_unref_ref (some 0) 0 rect2 sHold1F).getD
           (none, initS)).2.bufs = none ∧
         0 ∉ ((vips_buffer_unref_ref (some 0) 0 rect2 sHold1F).getD
           (none, initS)).2.cache.reserve))) :=
  ⟨by rfl, by rfl,
   alloc_failure_buffer_released.1 pel1 [false] [] (initState pel1 [false]) 0 rect1
     (((vips_buffer_ref 0 rect1 (initState pel1 [false])).getD (none, initS)).2)
     (by rfl) (by rfl),
   alloc_failure_buffer_released.2 pel1 [true, false] [BufOp.acquire 0 rect1] sHold1F
     0 0 rect2 bHold1F
     (((vips_buffer_unref_ref (some 0) 0 rect2 sHold1F).getD (none, initS)).2)
     (by rfl) (by rfl) (by rfl) (by rfl)⟩
